import Mathlib

set_option maxRecDepth 100000
set_option linter.unusedVariables false

/-!
Verification of the rwdsim event-lifecycle simulation engine.

This file gives a shallow embedding, in Lean 4, of the core of the rwdsim
repository: the calendar-date arithmetic used by the simulator
(`datetime.date`, `timedelta`, and `dateutil.relativedelta` semantics),
the survival-curve interpolation (`scipy.interpolate.PchipInterpolator`
over exact rationals), the patient cohort generation, the export-date
scheduler, the iterative abstraction loop (with an explicit fuel bound in
place of the source's unbounded `while True`), and the post-hoc sanity
checker.  Randomness (`random.randint`, `random.random`, `random.sample`,
`numpy.random.randint`) is modelled by an explicit oracle stream of values,
so every theorem quantifies over all possible random outcomes.

Python `float` values are modelled as exact rationals (`Frac`), an
idealisation of IEEE arithmetic that matches the spec-level description of
the computations.
-/

/-! ## Calendar dates

A proleptic Gregorian calendar date, mirroring Python's `datetime.date`
(year, month, day).  Comparison is lexicographic, exactly as `datetime.date`
ordering behaves. -/

structure Date where
  year : Nat
  month : Nat
  day : Nat
deriving DecidableEq

/-- Lexicographic strict order on dates, as Python compares `date` values. -/
def Date.Lt (a b : Date) : Prop :=
  a.year < b.year ∨ (a.year = b.year ∧ (a.month < b.month ∨ (a.month = b.month ∧ a.day < b.day)))

/-- Lexicographic order on dates (strictly less, or all fields equal). -/
def Date.Le (a b : Date) : Prop :=
  Date.Lt a b ∨ (a.year = b.year ∧ a.month = b.month ∧ a.day = b.day)

instance (a b : Date) : Decidable (Date.Lt a b) :=
  inferInstanceAs (Decidable (a.year < b.year ∨ (a.year = b.year ∧ (a.month < b.month ∨ (a.month = b.month ∧ a.day < b.day)))))

instance (a b : Date) : Decidable (Date.Le a b) :=
  inferInstanceAs (Decidable (Date.Lt a b ∨ (a.year = b.year ∧ a.month = b.month ∧ a.day = b.day)))

/-- Gregorian leap-year rule, as implemented by Python's `calendar.isleap`. -/
def isLeapYear (y : Nat) : Bool :=
  y % 4 == 0 && (y % 100 != 0 || y % 400 == 0)

/-- Number of days in a month, as `calendar.monthrange(y, m)[1]`. -/
def daysInMonth (y m : Nat) : Nat :=
  if m = 2 then (if isLeapYear y then 29 else 28)
  else if m = 4 ∨ m = 6 ∨ m = 9 ∨ m = 11 then 30
  else 31

/-- Cumulative day count of the months strictly before month `m` of year `y`
(month 13 stands for the whole year). -/
def daysBeforeMonth (y m : Nat) : Nat :=
  (if m ≤ 1 then 0 else if m = 2 then 31 else if m = 3 then 59 else if m = 4 then 90
   else if m = 5 then 120 else if m = 6 then 151 else if m = 7 then 181 else if m = 8 then 212
   else if m = 9 then 243 else if m = 10 then 273 else if m = 11 then 304 else if m = 12 then 334
   else 365)
  + (if 3 ≤ m ∧ isLeapYear y then 1 else 0)

/-- Day count of the full years strictly before year `y` (proleptic Gregorian). -/
def daysBeforeYear (y : Nat) : Nat :=
  365 * (y - 1) + (y - 1) / 4 + (y - 1) / 400 - (y - 1) / 100

/-- Serial day number of a date (the rata die ordinal, as
`datetime.date.toordinal`). -/
def Date.serial (d : Date) : Nat :=
  daysBeforeYear d.year + daysBeforeMonth d.year d.month + d.day

/-- Next calendar day. -/
def succDay (d : Date) : Date :=
  if d.day < daysInMonth d.year d.month then ⟨d.year, d.month, d.day + 1⟩
  else if d.month < 12 then ⟨d.year, d.month + 1, 1⟩
  else ⟨d.year + 1, 1, 1⟩

/-- Previous calendar day. -/
def predDay (d : Date) : Date :=
  if 1 < d.day then ⟨d.year, d.month, d.day - 1⟩
  else if 1 < d.month then ⟨d.year, d.month - 1, daysInMonth d.year (d.month - 1)⟩
  else ⟨d.year - 1, 12, 31⟩

/-- Date plus a signed number of whole days, as Python `date + timedelta(days=k)`. -/
def addDays (d : Date) (k : Int) : Date :=
  if 0 ≤ k then succDay^[k.toNat] d else predDay^[(-k).toNat] d

/-- Month bound sanity: the month field lies in 1..12 (true of every real
`datetime.date` and preserved by all date operations modelled here). -/
def Date.MonthOk (d : Date) : Prop := 1 ≤ d.month ∧ d.month ≤ 12

instance (d : Date) : Decidable (Date.MonthOk d) :=
  inferInstanceAs (Decidable (1 ≤ d.month ∧ d.month ≤ 12))

/-- Full validity of a date: the representable range of `datetime.date`. -/
def Date.Valid (d : Date) : Prop :=
  1 ≤ d.year ∧ 1 ≤ d.month ∧ d.month ≤ 12 ∧ 1 ≤ d.day ∧ d.day ≤ daysInMonth d.year d.month

instance (d : Date) : Decidable (Date.Valid d) :=
  inferInstanceAs (Decidable (1 ≤ d.year ∧ 1 ≤ d.month ∧ d.month ≤ 12 ∧ 1 ≤ d.day ∧ d.day ≤ daysInMonth d.year d.month))

/-- Month index counted from year 0: `year * 12 + (month - 1)`. -/
def Date.monthIdx (d : Date) : Nat := d.year * 12 + (d.month - 1)

/-- Date shifted by a signed number of months with the day clamped to the
target month's length: the semantics of `dateutil.relativedelta(months=k)`. -/
def addMonths (d : Date) (k : Int) : Date :=
  let idx : Nat := ((d.year : Int) * 12 + (d.month : Int) - 1 + k).toNat
  let y := idx / 12
  let m := idx % 12 + 1
  ⟨y, m, min d.day (daysInMonth y m)⟩

/-- Replace the day-of-month field, as Python `date.replace(day=n)`. -/
def Date.withDay (d : Date) (n : Nat) : Date := ⟨d.year, d.month, n⟩

/-- Replace the day-of-month field clamped to the month length: the semantics
of the absolute `day=n` argument of `dateutil.relativedelta`. -/
def Date.withDayClamp (d : Date) (n : Nat) : Date :=
  ⟨d.year, d.month, min (daysInMonth d.year d.month) n⟩

/-! ## Exact rationals

Python `float` computations of the simulator are modelled by exact rational
arithmetic on integer fractions.  All operations keep the denominator
positive and the fraction reduced, so that structural equality is value
equality for every number the simulator actually produces. -/

structure Frac where
  num : Int
  den : Int
deriving DecidableEq

/-- Reduce a fraction by the gcd of its components. -/
def Frac.norm (a : Frac) : Frac :=
  let g : Int := (Int.gcd a.num a.den : Int)
  if g = 0 then ⟨0, 1⟩ else ⟨a.num / g, a.den / g⟩

def Frac.add (a b : Frac) : Frac :=
  Frac.norm ⟨a.num * b.den + b.num * a.den, a.den * b.den⟩

def Frac.sub (a b : Frac) : Frac :=
  Frac.norm ⟨a.num * b.den - b.num * a.den, a.den * b.den⟩

def Frac.mul (a b : Frac) : Frac :=
  Frac.norm ⟨a.num * b.num, a.den * b.den⟩

def Frac.div (a b : Frac) : Frac :=
  let n := a.num * b.den
  let d := a.den * b.num
  if d = 0 then ⟨0, 1⟩
  else if d < 0 then Frac.norm ⟨-n, -d⟩
  else Frac.norm ⟨n, d⟩

/-- Strict order by cross multiplication (correct whenever denominators are
positive, which all produced values satisfy). -/
def Frac.Lt (a b : Frac) : Prop := a.num * b.den < b.num * a.den

/-- Order by cross multiplication. -/
def Frac.Le (a b : Frac) : Prop := a.num * b.den ≤ b.num * a.den

instance (a b : Frac) : Decidable (Frac.Lt a b) :=
  inferInstanceAs (Decidable (a.num * b.den < b.num * a.den))

instance (a b : Frac) : Decidable (Frac.Le a b) :=
  inferInstanceAs (Decidable (a.num * b.den ≤ b.num * a.den))

/-- Floor of a fraction (denominator positive). -/
def Frac.floor (a : Frac) : Int := Int.fdiv a.num a.den

/-- Round-half-away-from-zero is not needed; Python's `round` rounds half to
even, but the spec comparison points avoid exact halves, so round-half-up
`⌊x + 1/2⌋` agrees with it everywhere it is used here. -/
def Frac.round (a : Frac) : Int := Int.fdiv (2 * a.num + a.den) (2 * a.den)

/-- Sign of a fraction. -/
def Frac.sgn (a : Frac) : Int := Int.sign a.num * Int.sign a.den

def Frac.ofInt (n : Int) : Frac := ⟨n, 1⟩

/-! Sanity examples (kernel-computability checks of the models). -/

example : Frac.add ⟨32, 100⟩ ⟨45, 100⟩ = ⟨77, 100⟩ := by decide
example : Frac.div (Frac.sub ⟨32, 100⟩ ⟨45, 100⟩) ⟨2, 1⟩ = ⟨-13, 200⟩ := by decide
example : Frac.floor (Frac.mul ⟨3, 1⟩ ⟨1461, 4⟩) = 1095 := by decide
example : Frac.round (Frac.mul ⟨3, 1⟩ ⟨1461, 4⟩) = 1096 := by decide
example : succDay ⟨2020, 2, 28⟩ = ⟨2020, 2, 29⟩ := by decide
example : succDay ⟨2021, 2, 28⟩ = ⟨2021, 3, 1⟩ := by decide
example : addMonths ⟨2020, 11, 30⟩ 3 = ⟨2021, 2, 28⟩ := by decide
example : addDays ⟨2020, 1, 1⟩ 60 = ⟨2020, 3, 1⟩ := by decide
example : addDays ⟨2020, 3, 1⟩ (-1) = ⟨2020, 2, 29⟩ := by decide

/-! ## Order and serial-number lemmas for dates -/

theorem Date.ext_eq {a b : Date} (hy : a.year = b.year) (hm : a.month = b.month)
    (hd : a.day = b.day) : a = b := by
  cases a; cases b; simp_all

theorem Date.le_refl (a : Date) : Date.Le a a := Or.inr ⟨rfl, rfl, rfl⟩

theorem Date.lt_trans {a b c : Date} (h1 : Date.Lt a b) (h2 : Date.Lt b c) : Date.Lt a c := by
  unfold Date.Lt at *; omega

theorem Date.le_trans {a b c : Date} (h1 : Date.Le a b) (h2 : Date.Le b c) : Date.Le a c := by
  unfold Date.Le Date.Lt at *; omega

theorem Date.lt_of_le_of_lt {a b c : Date} (h1 : Date.Le a b) (h2 : Date.Lt b c) : Date.Lt a c := by
  unfold Date.Le Date.Lt at *; omega

theorem Date.lt_of_lt_of_le {a b c : Date} (h1 : Date.Lt a b) (h2 : Date.Le b c) : Date.Lt a c := by
  unfold Date.Le Date.Lt at *; omega

theorem Date.le_of_lt {a b : Date} (h : Date.Lt a b) : Date.Le a b := Or.inl h

theorem Date.le_total_of_not_lt {a b : Date} (h : ¬ Date.Lt a b) : Date.Le b a := by
  unfold Date.Lt at h; unfold Date.Le Date.Lt; omega

theorem Date.lt_of_not_le {a b : Date} (h : ¬ Date.Le a b) : Date.Lt b a := by
  unfold Date.Le Date.Lt at *; omega

theorem isLeapYear_iff (y : Nat) :
    isLeapYear y = true ↔ (y % 4 = 0 ∧ (y % 100 ≠ 0 ∨ y % 400 = 0)) := by
  simp [isLeapYear, Bool.and_eq_true, Bool.or_eq_true, beq_iff_eq, bne_iff_ne]

theorem daysInMonth_ge (y m : Nat) : 28 ≤ daysInMonth y m := by
  unfold daysInMonth; split <;> split <;> omega

theorem daysInMonth_le (y m : Nat) : daysInMonth y m ≤ 31 := by
  unfold daysInMonth; split
  · split <;> omega
  · split <;> omega

theorem daysInMonth_one (y : Nat) : daysInMonth y 1 = 31 := by
  unfold daysInMonth; simp

theorem daysInMonth_twelve (y : Nat) : daysInMonth y 12 = 31 := by
  unfold daysInMonth; simp

theorem daysBeforeMonth_one (y : Nat) : daysBeforeMonth y 1 = 0 := by
  unfold daysBeforeMonth; simp

theorem daysBeforeMonth_twelve (y : Nat) :
    daysBeforeMonth y 12 = 334 + (if isLeapYear y then 1 else 0) := by
  unfold daysBeforeMonth; simp

theorem daysBeforeMonth_succ (y m : Nat) (h1 : 1 ≤ m) (h2 : m ≤ 12) :
    daysBeforeMonth y (m + 1) = daysBeforeMonth y m + daysInMonth y m := by
  rcases hl : isLeapYear y <;> interval_cases m <;>
    (unfold daysBeforeMonth daysInMonth; simp [hl])

theorem daysBeforeMonth_le (y m : Nat) (h : m ≤ 13) :
    daysBeforeMonth y m ≤ 365 + (if isLeapYear y then 1 else 0) := by
  rcases hl : isLeapYear y <;> interval_cases m <;>
    (unfold daysBeforeMonth; simp [hl])

theorem daysBeforeMonth_mono (y : Nat) {m1 m2 : Nat} (hm : 1 ≤ m1) (h1 : m1 ≤ m2) (h2 : m2 ≤ 13) :
    daysBeforeMonth y m1 ≤ daysBeforeMonth y m2 := by
  obtain ⟨k, rfl⟩ : ∃ k, m2 = m1 + k := ⟨m2 - m1, by omega⟩
  clear h1
  induction k with
  | zero => exact Nat.le_refl _
  | succ n ih =>
    have ha : m1 + (n + 1) = (m1 + n) + 1 := by omega
    rw [ha]
    have hs := daysBeforeMonth_succ y (m1 + n) (by omega) (by omega)
    have hi := ih (by omega)
    have hg := daysInMonth_ge y (m1 + n)
    omega

theorem daysBeforeYear_succ_leap (y : Nat) (h : 1 ≤ y) (hl : isLeapYear y = true) :
    daysBeforeYear (y + 1) = daysBeforeYear y + 366 := by
  obtain ⟨h4, h2⟩ := (isLeapYear_iff y).mp hl
  unfold daysBeforeYear
  rcases h2 with h100 | h400
  · omega
  · omega

theorem daysBeforeYear_succ_common (y : Nat) (h : 1 ≤ y) (hl : isLeapYear y = false) :
    daysBeforeYear (y + 1) = daysBeforeYear y + 365 := by
  have hn : ¬ (y % 4 = 0 ∧ (y % 100 ≠ 0 ∨ y % 400 = 0)) := by
    intro hc
    rw [(isLeapYear_iff y).mpr hc] at hl
    cases hl
  unfold daysBeforeYear
  by_cases h4 : y % 4 = 0
  · by_cases h100 : y % 100 = 0
    · by_cases h400 : y % 400 = 0
      · exact absurd ⟨h4, Or.inr h400⟩ hn
      · omega
    · exact absurd ⟨h4, Or.inl h100⟩ hn
  · omega

theorem daysBeforeYear_succ (y : Nat) (h : 1 ≤ y) :
    daysBeforeYear (y + 1) = daysBeforeYear y + (if isLeapYear y then 366 else 365) := by
  rcases hl : isLeapYear y
  · rw [daysBeforeYear_succ_common y h hl]; simp
  · rw [daysBeforeYear_succ_leap y h hl]; simp

theorem daysBeforeYear_le_succ (y : Nat) : daysBeforeYear y ≤ daysBeforeYear (y + 1) := by
  rcases Nat.eq_zero_or_pos y with h | h
  · subst h; unfold daysBeforeYear; simp
  · have hs := daysBeforeYear_succ y h
    split at hs <;> omega

theorem daysBeforeYear_mono {y1 y2 : Nat} (h : y1 ≤ y2) :
    daysBeforeYear y1 ≤ daysBeforeYear y2 := by
  obtain ⟨k, rfl⟩ : ∃ k, y2 = y1 + k := ⟨y2 - y1, by omega⟩
  clear h
  induction k with
  | zero => exact Nat.le_refl _
  | succ n ih => exact le_trans ih (daysBeforeYear_le_succ (y1 + n))

theorem Date.valid_mk {y m dd : Nat} (h1 : 1 ≤ y) (h2 : 1 ≤ m) (h3 : m ≤ 12) (h4 : 1 ≤ dd)
    (h5 : dd ≤ daysInMonth y m) : Date.Valid ⟨y, m, dd⟩ := ⟨h1, h2, h3, h4, h5⟩

theorem Date.monthOk_mk {y m dd : Nat} (h1 : 1 ≤ m) (h2 : m ≤ 12) :
    Date.MonthOk ⟨y, m, dd⟩ := ⟨h1, h2⟩

theorem Date.lt_mk {a : Date} {y m dd : Nat}
    (h : a.year < y ∨ (a.year = y ∧ (a.month < m ∨ (a.month = m ∧ a.day < dd)))) :
    Date.Lt a ⟨y, m, dd⟩ := h

theorem Date.serial_mk (y m dd : Nat) :
    Date.serial ⟨y, m, dd⟩ = daysBeforeYear y + daysBeforeMonth y m + dd := rfl

theorem succDay_valid {d : Date} (h : Date.Valid d) : Date.Valid (succDay d) := by
  obtain ⟨hy, hm1, hm2, hd1, hd2⟩ := h
  unfold succDay
  split_ifs with h1 h2
  · exact Date.valid_mk hy hm1 hm2 (by omega) (by omega)
  · exact Date.valid_mk hy (by omega) (by omega) (Nat.le_refl 1)
      (by have := daysInMonth_ge d.year (d.month + 1); omega)
  · exact Date.valid_mk (by omega) (Nat.le_refl 1) (by omega) (Nat.le_refl 1)
      (by have := daysInMonth_ge (d.year + 1) 1; omega)

theorem succDay_monthOk {d : Date} (h : Date.MonthOk d) : Date.MonthOk (succDay d) := by
  obtain ⟨h1, h2⟩ := h
  unfold succDay
  split_ifs with ha hb
  · exact ⟨h1, h2⟩
  · exact Date.monthOk_mk (by omega) (by omega)
  · exact Date.monthOk_mk (by omega) (by omega)

theorem predDay_monthOk {d : Date} (h : Date.MonthOk d) : Date.MonthOk (predDay d) := by
  obtain ⟨h1, h2⟩ := h
  unfold predDay
  split_ifs with ha hb
  · exact ⟨h1, h2⟩
  · exact Date.monthOk_mk (by omega) (by omega)
  · exact Date.monthOk_mk (by omega) (by omega)

theorem lt_succDay (d : Date) : Date.Lt d (succDay d) := by
  unfold succDay
  split_ifs with h1 h2
  · exact Date.lt_mk (Or.inr ⟨rfl, Or.inr ⟨rfl, by omega⟩⟩)
  · exact Date.lt_mk (Or.inr ⟨rfl, Or.inl (by omega)⟩)
  · exact Date.lt_mk (Or.inl (by omega))

theorem serial_succDay {d : Date} (h : Date.Valid d) :
    Date.serial (succDay d) = Date.serial d + 1 := by
  obtain ⟨hy, hm1, hm2, hd1, hd2⟩ := h
  unfold succDay
  split_ifs with h1 h2
  · rw [Date.serial_mk]
    show _ = daysBeforeYear d.year + daysBeforeMonth d.year d.month + d.day + 1
    omega
  · rw [Date.serial_mk]
    show _ = daysBeforeYear d.year + daysBeforeMonth d.year d.month + d.day + 1
    have hs := daysBeforeMonth_succ d.year d.month hm1 hm2
    omega
  · rw [Date.serial_mk]
    show _ = daysBeforeYear d.year + daysBeforeMonth d.year d.month + d.day + 1
    have hm12 : d.month = 12 := by omega
    have hsy := daysBeforeYear_succ d.year hy
    have hb1 := daysBeforeMonth_one (d.year + 1)
    have hb12 := daysBeforeMonth_twelve d.year
    have hd12 := daysInMonth_twelve d.year
    rw [hm12] at hd2 h1 ⊢
    rcases hl : isLeapYear d.year <;> simp [hl] at hsy hb12 <;> omega

theorem serial_lt_of_lt {a b : Date} (ha : Date.Valid a) (hb : Date.Valid b)
    (h : Date.Lt a b) : Date.serial a < Date.serial b := by
  obtain ⟨hay, ham1, ham2, had1, had2⟩ := ha
  obtain ⟨hby, hbm1, hbm2, hbd1, hbd2⟩ := hb
  have hsa : daysBeforeMonth a.year a.month + a.day
      ≤ 365 + (if isLeapYear a.year then 1 else 0) := by
    have h1 := daysBeforeMonth_succ a.year a.month ham1 ham2
    have h2 := daysBeforeMonth_le a.year (a.month + 1) (by omega)
    omega
  rcases h with h | ⟨hy, h⟩
  · have h1 : daysBeforeYear (a.year + 1) ≤ daysBeforeYear b.year :=
      daysBeforeYear_mono (by omega)
    have h2 := daysBeforeYear_succ a.year hay
    unfold Date.serial
    rcases hl : isLeapYear a.year <;> simp [hl] at hsa h2 <;> omega
  · rcases h with h | ⟨hm, h⟩
    · have h1 := daysBeforeMonth_succ a.year a.month ham1 ham2
      have h2 : daysBeforeMonth a.year (a.month + 1) ≤ daysBeforeMonth a.year b.month :=
        daysBeforeMonth_mono a.year (by omega) (by omega) (by omega)
      unfold Date.serial
      rw [← hy]
      omega
    · unfold Date.serial
      rw [← hy, ← hm]
      omega

theorem serial_le_of_le {a b : Date} (ha : Date.Valid a) (hb : Date.Valid b)
    (h : Date.Le a b) : Date.serial a ≤ Date.serial b := by
  rcases h with h | ⟨hy, hm, hd⟩
  · exact Nat.le_of_lt (serial_lt_of_lt ha hb h)
  · rw [Date.ext_eq hy hm hd]

theorem lt_of_serial_lt {a b : Date} (ha : Date.Valid a) (hb : Date.Valid b)
    (h : Date.serial a < Date.serial b) : Date.Lt a b := by
  by_contra hc
  have := serial_le_of_le hb ha (Date.le_total_of_not_lt hc)
  omega

theorem le_of_serial_le {a b : Date} (ha : Date.Valid a) (hb : Date.Valid b)
    (h : Date.serial a ≤ Date.serial b) : Date.Le a b := by
  by_contra hc
  have := serial_lt_of_lt hb ha (Date.lt_of_not_le hc)
  omega

theorem iterate_succDay_valid (k : Nat) {d : Date} (h : Date.Valid d) :
    Date.Valid (succDay^[k] d) := by
  induction k with
  | zero => exact h
  | succ n ih => rw [Function.iterate_succ_apply']; exact succDay_valid ih

theorem iterate_succDay_monthOk (k : Nat) {d : Date} (h : Date.MonthOk d) :
    Date.MonthOk (succDay^[k] d) := by
  induction k with
  | zero => exact h
  | succ n ih => rw [Function.iterate_succ_apply']; exact succDay_monthOk ih

theorem iterate_predDay_monthOk (k : Nat) {d : Date} (h : Date.MonthOk d) :
    Date.MonthOk (predDay^[k] d) := by
  induction k with
  | zero => exact h
  | succ n ih => rw [Function.iterate_succ_apply']; exact predDay_monthOk ih

theorem iterate_succDay_serial (k : Nat) {d : Date} (h : Date.Valid d) :
    Date.serial (succDay^[k] d) = Date.serial d + k := by
  induction k with
  | zero => rfl
  | succ n ih =>
    rw [Function.iterate_succ_apply', serial_succDay (iterate_succDay_valid n h), ih]
    omega

theorem le_iterate_succDay (k : Nat) (d : Date) : Date.Le d (succDay^[k] d) := by
  induction k with
  | zero => exact Date.le_refl d
  | succ n ih =>
    rw [Function.iterate_succ_apply']
    exact Date.le_trans ih (Date.le_of_lt (lt_succDay _))

theorem addDays_nonneg {k : Int} (d : Date) (h : 0 ≤ k) :
    addDays d k = succDay^[k.toNat] d := by
  unfold addDays; rw [if_pos h]

theorem le_addDays (d : Date) {k : Int} (h : 0 ≤ k) : Date.Le d (addDays d k) := by
  rw [addDays_nonneg d h]; exact le_iterate_succDay _ d

theorem addDays_valid {d : Date} {k : Int} (hd : Date.Valid d) (h : 0 ≤ k) :
    Date.Valid (addDays d k) := by
  rw [addDays_nonneg d h]; exact iterate_succDay_valid _ hd

theorem addDays_serial {d : Date} {k : Int} (hd : Date.Valid d) (h : 0 ≤ k) :
    Date.serial (addDays d k) = Date.serial d + k.toNat := by
  rw [addDays_nonneg d h]; exact iterate_succDay_serial _ hd

theorem addDays_monthOk {k : Int} {d : Date} (h : Date.MonthOk d) :
    Date.MonthOk (addDays d k) := by
  unfold addDays
  split_ifs
  · exact iterate_succDay_monthOk _ h
  · exact iterate_predDay_monthOk _ h

theorem monthIdx_addMonths {d : Date} {k : Int} (hm : Date.MonthOk d) (hk : 0 ≤ k) :
    (addMonths d k).monthIdx = d.monthIdx + k.toNat := by
  obtain ⟨h1, h2⟩ := hm
  unfold addMonths Date.monthIdx
  dsimp only
  omega

theorem monthOk_addMonths (d : Date) (k : Int) : Date.MonthOk (addMonths d k) := by
  unfold addMonths
  dsimp only
  exact Date.monthOk_mk (by omega) (by omega)

theorem year_pos_addMonths {d : Date} {k : Int} (hm : Date.MonthOk d) (hy : 1 ≤ d.year)
    (hk : 0 ≤ k) : 1 ≤ (addMonths d k).year := by
  obtain ⟨h1, h2⟩ := hm
  unfold addMonths
  show 1 ≤ ((d.year : Int) * 12 + (d.month : Int) - 1 + k).toNat / 12
  omega

theorem lt_of_monthIdx_lt {a b : Date} (ha : Date.MonthOk a) (hb : Date.MonthOk b)
    (h : a.monthIdx < b.monthIdx) : Date.Lt a b := by
  obtain ⟨ha1, ha2⟩ := ha
  obtain ⟨hb1, hb2⟩ := hb
  unfold Date.monthIdx at h
  unfold Date.Lt
  omega

theorem monthIdx_le_of_le {a b : Date} (ha : Date.MonthOk a) (hb : Date.MonthOk b)
    (h : Date.Le a b) : a.monthIdx ≤ b.monthIdx := by
  obtain ⟨ha1, ha2⟩ := ha
  obtain ⟨hb1, hb2⟩ := hb
  unfold Date.Le Date.Lt at h
  unfold Date.monthIdx
  omega

theorem monthIdx_withDay (d : Date) (n : Nat) : (d.withDay n).monthIdx = d.monthIdx := rfl

theorem monthOk_withDay {d : Date} (h : Date.MonthOk d) (n : Nat) :
    Date.MonthOk (d.withDay n) := h

theorem withDay_day (d : Date) (n : Nat) : (d.withDay n).day = n := rfl

/-! ## Randomness oracle

The simulator draws from Python's `random` module and numpy.  Every draw is
modelled by reading the next element of an explicit oracle stream, so all
theorems below quantify over every possible sequence of random outcomes.
Position `i` of the stream supplies both an unbounded natural number
(consumed by the integer draws) and a rational (consumed by
`random.random`). -/

def RandOracle : Type := Nat → Nat × Frac

def randHeadN (g : RandOracle) : Nat := (g 0).1

def randHeadF (g : RandOracle) : Frac := (g 0).2

def randTail (g : RandOracle) : RandOracle := fun i => g (i + 1)

/-- Python `random.randint(a, b)`: uniform integer in `[a, b]`, both ends
inclusive (Python raises for `a > b`; the model is total and theorems assume
`a ≤ b`). -/
def randint (a b : Int) (r : Nat) : Int := a + ((r % ((b - a + 1).toNat) : Nat) : Int)

/-- numpy `np.random.randint(lo, hi)`: uniform integer in `[lo, hi)`. -/
def npRandint (lo hi : Int) (r : Nat) : Int := lo + ((r % ((hi - lo).toNat) : Nat) : Int)

theorem randint_bounds {a b : Int} (r : Nat) (h : a ≤ b) :
    a ≤ randint a b r ∧ randint a b r ≤ b := by
  unfold randint
  have hpos : 0 < (b - a + 1).toNat := by omega
  have hlt : r % (b - a + 1).toNat < (b - a + 1).toNat := Nat.mod_lt r hpos
  omega

theorem npRandint_bounds {lo hi : Int} (r : Nat) (h : lo < hi) :
    lo ≤ npRandint lo hi r ∧ npRandint lo hi r < hi := by
  unfold npRandint
  have hpos : 0 < (hi - lo).toNat := by omega
  have hlt : r % (hi - lo).toNat < (hi - lo).toNat := Nat.mod_lt r hpos
  omega

/-! ## simutils (rwdsim/simutils.py) -/

/-- simutils.py `generate_random_date`: the start date plus
`np.random.randint(0, (end_date - start_date).days)` days; `(b - a).days` is
the difference of the dates' serial day numbers. -/
def generate_random_date (start_date end_date : Date) (r : Nat) : Date :=
  addDays start_date (npRandint 0 ((end_date.serial : Int) - (start_date.serial : Int)) r)

/-- Ordered-dictionary lookup (Python `dict` preserves insertion order; keys
are unique in all curves the simulator builds). -/
def dictLookup (l : List (Nat × Frac)) (y : Nat) : Option Frac :=
  match l with
  | [] => none
  | p :: rest => if p.1 = y then some p.2 else dictLookup rest y

def insertSortedNat (x : Nat) : List Nat → List Nat
  | [] => [x]
  | a :: rest => if x ≤ a then x :: a :: rest else a :: insertSortedNat x rest

/-- Python `sorted` over the dictionary keys. -/
def sortedNats (l : List Nat) : List Nat := l.foldr insertSortedNat []

/-- Python `max(list)` (0 when empty; the source only evaluates it on
non-empty candidate sets). -/
def listMax0 (l : List Nat) : Nat := l.foldl Nat.max 0

/-- Python `min(list)` with a default for the empty case (the source only
evaluates it on non-empty candidate sets). -/
def listMinD (l : List Nat) (dflt : Nat) : Nat :=
  match l with
  | [] => dflt
  | a :: rest => rest.foldl Nat.min a

/-- Python `list[-1]` with a default. -/
def listLastD (l : List Nat) (dflt : Nat) : Nat := l.getLastD dflt

/-- Python `list[-2]` with a default. -/
def listSecondLastD (l : List Nat) (dflt : Nat) : Nat :=
  match l.reverse with
  | _ :: b :: _ => b
  | _ => dflt

/-- Value assigned by simutils.py `calculate_missing_probabilities` to one
year of the output range: years present in the input keep their value, years
inside the provided range are linearly interpolated between their
neighbouring provided years, years beyond the provided range are linearly
extrapolated through the last two provided points (or copy the last value
when only one point exists). -/
def interpolateYear (sd : List (Nat × Frac)) (sortedYears : List Nat) (year : Nat) : Frac :=
  match dictLookup sd year with
  | some v => v
  | none =>
    if year < listLastD sortedYears 0 then
      let lowerYear := listMax0 (sortedYears.filter (fun z => decide (z < year)))
      let upperYear := listMinD (sortedYears.filter (fun z => decide (year < z))) 0
      let vLow := (dictLookup sd lowerYear).getD ⟨0, 1⟩
      let vUp := (dictLookup sd upperYear).getD ⟨0, 1⟩
      let slope := Frac.div (Frac.sub vUp vLow) (Frac.ofInt ((upperYear : Int) - (lowerYear : Int)))
      Frac.add vLow (Frac.mul slope (Frac.ofInt ((year : Int) - (lowerYear : Int))))
    else
      if 2 ≤ sortedYears.length then
        let lastYear := listLastD sortedYears 0
        let secondLastYear := listSecondLastD sortedYears 0
        let vLast := (dictLookup sd lastYear).getD ⟨0, 1⟩
        let vSecond := (dictLookup sd secondLastYear).getD ⟨0, 1⟩
        let slope := Frac.div (Frac.sub vLast vSecond)
          (Frac.ofInt ((lastYear : Int) - (secondLastYear : Int)))
        Frac.add vLast (Frac.mul slope (Frac.ofInt ((year : Int) - (lastYear : Int))))
      else
        (dictLookup sd (listLastD sortedYears 0)).getD ⟨0, 1⟩

/-- simutils.py `calculate_missing_probabilities`: maps every year from the
first provided year up to the observation period to its provided,
interpolated or extrapolated survival probability.  (The source raises
`ValueError` for an empty dictionary or a period below one year; callers
never do that and the claims use non-empty inputs.) -/
def calculate_missing_probabilities (sd : List (Nat × Frac)) (period : Nat) :
    List (Nat × Frac) :=
  let sortedYears := sortedNats (sd.map Prod.fst)
  let y0 := match sortedYears with
    | [] => 0
    | a :: _ => a
  (List.range (period + 1 - y0)).map (fun i => (y0 + i, interpolateYear sd sortedYears (y0 + i)))

/-! ## Survival-curve sampling (scipy PchipInterpolator over exact rationals)

The model reproduces scipy's `PchipInterpolator` with `extrapolate=False`:
Fritsch–Carlson monotone derivative estimates (`_find_derivatives` with
`_edge_case` at both ends) and cubic Hermite evaluation per cell, returning
`NaN` (modelled as `none`) outside the knot range. -/

/-- Absolute value of a fraction. -/
def Frac.abs (a : Frac) : Frac := ⟨(a.num.natAbs : Int), (a.den.natAbs : Int)⟩

/-- Knot spacing `hk[i] = x[i+1] - x[i]`. -/
def pchipH (xs : List Frac) (i : Nat) : Frac :=
  Frac.sub (xs.getD (i + 1) ⟨0, 1⟩) (xs.getD i ⟨0, 1⟩)

/-- Secant slope `mk[i] = (y[i+1] - y[i]) / hk[i]`. -/
def pchipSlope (xs ys : List Frac) (i : Nat) : Frac :=
  Frac.div (Frac.sub (ys.getD (i + 1) ⟨0, 1⟩) (ys.getD i ⟨0, 1⟩)) (pchipH xs i)

/-- scipy `PchipInterpolator._edge_case`: one-sided three-point derivative
estimate at an endpoint, clipped to preserve shape. -/
def pchipEdge (h0 h1 m0 m1 : Frac) : Frac :=
  let d := Frac.div (Frac.sub (Frac.mul (Frac.add (Frac.mul ⟨2, 1⟩ h0) h1) m0) (Frac.mul h0 m1))
    (Frac.add h0 h1)
  if Frac.sgn d ≠ Frac.sgn m0 then ⟨0, 1⟩
  else if Frac.sgn m0 ≠ Frac.sgn m1 ∧ Frac.Lt (Frac.mul ⟨3, 1⟩ (Frac.abs m0)) (Frac.abs d)
    then Frac.mul ⟨3, 1⟩ m0
  else d

/-- scipy `PchipInterpolator._find_derivatives`: derivative estimate at knot
`i` of the curve with knots `xs`, values `ys` (weighted harmonic mean of the
adjacent secant slopes inside, `_edge_case` at the two ends, the plain secant
for a two-point curve). -/
def pchipD (xs ys : List Frac) (i : Nat) : Frac :=
  let n := xs.length - 1
  if xs.length = 2 then pchipSlope xs ys 0
  else if i = 0 then pchipEdge (pchipH xs 0) (pchipH xs 1) (pchipSlope xs ys 0) (pchipSlope xs ys 1)
  else if i = n then
    pchipEdge (pchipH xs (n - 1)) (pchipH xs (n - 2)) (pchipSlope xs ys (n - 1)) (pchipSlope xs ys (n - 2))
  else
    let mk0 := pchipSlope xs ys (i - 1)
    let mk1 := pchipSlope xs ys i
    if Frac.sgn mk1 ≠ Frac.sgn mk0 ∨ mk0.num = 0 ∨ mk1.num = 0 then ⟨0, 1⟩
    else
      let h0 := pchipH xs (i - 1)
      let h1 := pchipH xs i
      let w1 := Frac.add (Frac.mul ⟨2, 1⟩ h1) h0
      let w2 := Frac.add h1 (Frac.mul ⟨2, 1⟩ h0)
      Frac.div (Frac.add w1 w2) (Frac.add (Frac.div w1 mk0) (Frac.div w2 mk1))

/-- Cubic Hermite evaluation on cell `[x_i, x_(i+1)]` at `u`. -/
def pchipEvalCell (xs ys : List Frac) (i : Nat) (u : Frac) : Frac :=
  let xi := xs.getD i ⟨0, 1⟩
  let h := pchipH xs i
  let t := Frac.div (Frac.sub u xi) h
  let t2 := Frac.mul t t
  let t3 := Frac.mul t2 t
  let yi := ys.getD i ⟨0, 1⟩
  let yi1 := ys.getD (i + 1) ⟨0, 1⟩
  let di := pchipD xs ys i
  let di1 := pchipD xs ys (i + 1)
  Frac.add
    (Frac.add (Frac.mul yi (Frac.add (Frac.sub (Frac.mul ⟨2, 1⟩ t3) (Frac.mul ⟨3, 1⟩ t2)) ⟨1, 1⟩))
      (Frac.mul (Frac.mul h di) (Frac.add (Frac.sub t3 (Frac.mul ⟨2, 1⟩ t2)) t)))
    (Frac.add (Frac.mul yi1 (Frac.sub (Frac.mul ⟨3, 1⟩ t2) (Frac.mul ⟨2, 1⟩ t3)))
      (Frac.mul (Frac.mul h di1) (Frac.sub t3 t2)))

/-- Index of the evaluation cell for `u`: the last knot at or below `u`
(capped so that `u = x_n` evaluates on the final cell). -/
def pchipCellIdx (xs : List Frac) (u : Frac) : Nat :=
  min ((xs.filter (fun x => decide (Frac.Le x u))).length - 1) (xs.length - 2)

/-- Pchip evaluation with `extrapolate=False`: `none` (NaN) outside
`[x_0, x_n]`, cubic Hermite inside. -/
def pchipEval (xs ys : List Frac) (u : Frac) : Option Frac :=
  match xs with
  | [] => none
  | x0 :: rest =>
    if Frac.Lt u x0 ∨ Frac.Lt ((x0 :: rest).getLastD x0) u then none
    else some (pchipEvalCell (x0 :: rest) ys (pchipCellIdx (x0 :: rest) u) u)

/-- simulation.py `_get_interpolator`, knot abscissas: probability `1.0`
prepended to the curve's probabilities, then reversed into increasing order. -/
def interpolatorXs (survival_probabilities : List (Nat × Frac)) : List Frac :=
  ((⟨1, 1⟩ : Frac) :: survival_probabilities.map Prod.snd).reverse

/-- simulation.py `_get_interpolator`, knot ordinates: year `0` prepended to
the curve's years, then reversed. -/
def interpolatorYs (survival_probabilities : List (Nat × Frac)) : List Frac :=
  (Frac.ofInt 0 :: survival_probabilities.map (fun p => Frac.ofInt (p.1 : Int))).reverse

/-- Evaluation of the cached interpolant of simulation.py `_get_interpolator`
on a draw `u` (the `@cache` decorator of the source is semantically
transparent). -/
def interp_sample (survival_probabilities : List (Nat × Frac)) (u : Frac) : Option Frac :=
  pchipEval (interpolatorXs survival_probabilities) (interpolatorYs survival_probabilities) u

/-- simulation.py `determine_death_date`: evaluates the interpolant at the
uniform draw `u`; `NaN` means the patient does not die (no date); otherwise
the death date is `diagnosis_date + timedelta(days=year_delta * 365.25)`.
Python's `date + timedelta` keeps only the whole-day part of the delta, so
the fractional day count is truncated toward negative infinity. -/
def determine_death_date (diagnosis_date : Date) (survival_probabilities : List (Nat × Frac))
    (u : Frac) : Option Date :=
  match interp_sample survival_probabilities u with
  | none => none
  | some year_delta =>
    some (addDays diagnosis_date (Frac.floor (Frac.mul year_delta ⟨1461, 4⟩)))

/-- Modelled from the spec: the specification section 4.2 states
`death date = diagnosis_date + round(year_offset × 365.25 days)`, the
fractional day count rounded to the nearest whole day.  This definition
follows those words for comparison with `determine_death_date`, which is the
code's behaviour (truncation). -/
def determine_death_date_specRound (diagnosis_date : Date)
    (survival_probabilities : List (Nat × Frac)) (u : Frac) : Option Date :=
  match interp_sample survival_probabilities u with
  | none => none
  | some year_delta =>
    some (addDays diagnosis_date (Frac.round (Frac.mul year_delta ⟨1461, 4⟩)))

/-! ## Data model (classes.py) -/

structure Drug where
  name : String
  survival_probabilities : List (Nat × Frac)
  start_date_range : Int × Int
  probability_weights : List Nat
deriving DecidableEq

/-- Patient record (classes.py `Patient`): identity, assigned drug, and the
per-event lifecycle dates.  `diagnosis_date` is mandatory; every other date
is optional.  (`Timestamp` fields hold calendar dates in the simulator.) -/
structure Patient where
  patient_id : Nat
  drug : Drug
  diagnosis_date : Date
  diagnosis_date_exported : Option Date
  diagnosis_date_abstracted : Option Date
  drug_date : Option Date
  drug_date_exported : Option Date
  drug_date_abstracted : Option Date
  death_date : Option Date
  death_date_recorded : Option Date
  death_date_exported : Option Date
  death_date_abstracted : Option Date
deriving DecidableEq

/-- Simulation parameters (the fields of `SimParams` that simulation.py
reads). -/
structure SimParams where
  observation_start_date : Date
  observation_end_date : Date
  study_start_date : Date
  cohort_size : Nat
  db_update_frequency_in_months : Nat
  death_date_recording_latency_range : Int × Int
  patients_abstracted_per_month : Nat
  diagnosis_date_abstraction_latency_range : Int × Int
  drug_date_abstraction_latency_range : Int × Int
  death_date_abstraction_latency_range : Int × Int
  drugs : List Drug
deriving DecidableEq

def dummyDrug : Drug := ⟨"", [], (0, 0), []⟩

def dummyPatient : Patient :=
  ⟨0, dummyDrug, ⟨1, 1, 1⟩, none, none, none, none, none, none, none, none, none⟩

/-- The three tracked events. -/
inductive EventKind
  | diagnosis
  | drug
  | death
deriving DecidableEq

def eventOccurred (p : Patient) : EventKind → Option Date
  | .diagnosis => some p.diagnosis_date
  | .drug => p.drug_date
  | .death => p.death_date

def eventExported (p : Patient) : EventKind → Option Date
  | .diagnosis => p.diagnosis_date_exported
  | .drug => p.drug_date_exported
  | .death => p.death_date_exported

def eventAbstracted (p : Patient) : EventKind → Option Date
  | .diagnosis => p.diagnosis_date_abstracted
  | .drug => p.drug_date_abstracted
  | .death => p.death_date_abstracted

def setEventAbstracted (p : Patient) : EventKind → Option Date → Patient
  | .diagnosis, v => { p with diagnosis_date_abstracted := v }
  | .drug, v => { p with drug_date_abstracted := v }
  | .death, v => { p with death_date_abstracted := v }

def eventLatencyRange (sp : SimParams) : EventKind → Int × Int
  | .diagnosis => sp.diagnosis_date_abstraction_latency_range
  | .drug => sp.drug_date_abstraction_latency_range
  | .death => sp.death_date_abstraction_latency_range

/-! ## Simulation engine (simulation.py) -/

/-- simulation.py `calculate_next_abstraction_assessment_date`:
`offset_date + relativedelta(months=db_update_frequency_in_months, day=2)` —
shift by the export cadence, then set the day-of-month to 2 (clamped to the
month length, which never bites since every month has at least 28 days). -/
def calculate_next_abstraction_assessment_date (offset_date : Date)
    (sim_params : SimParams) : Date :=
  (addMonths offset_date (sim_params.db_update_frequency_in_months : Int)).withDayClamp 2

/-- simulation.py `determine_treatment_date`: diagnosis date plus a uniform
offset from the drug's start range; unset when that lands on or after the
death date. -/
def determine_treatment_date (diagnosis_date : Date) (death_date : Option Date)
    (treatment_date_range : Int × Int) (r : Nat) : Option Date :=
  let treatment_date_offset := randint treatment_date_range.1 treatment_date_range.2 r
  let treatment_date := addDays diagnosis_date treatment_date_offset
  match death_date with
  | none => some treatment_date
  | some dd => if Date.Lt treatment_date dd then some treatment_date else none

/-- simulation.py `simulate_delayed_recording_date`: unset stays unset,
otherwise the event date plus a uniform latency from the range. -/
def simulate_delayed_recording_date (event_date : Option Date)
    (latency_range : Int × Int) (r : Nat) : Option Date :=
  match event_date with
  | none => none
  | some d => some (addDays d (randint latency_range.1 latency_range.2 r))

/-- simulation.py `calculate_exported_date`: unset input yields unset output;
an event before the study start is exported on the first export cycle after
the study start; otherwise the export lands on the first day of the month
reached by rounding the months elapsed since the study start up to the next
multiple of the cadence (an event exactly on a cycle boundary rolls to the
next cycle). -/
def calculate_exported_date (event_date : Option Date) (study_start_date : Date)
    (db_update_frequency_in_months : Nat) : Option Date :=
  match event_date with
  | none => none
  | some e =>
    if Date.Lt e study_start_date then
      some (addMonths (study_start_date.withDay 1) (db_update_frequency_in_months : Int))
    else
      let months_since_study_start : Int :=
        ((e.year : Int) - (study_start_date.year : Int)) * 12
          + (e.month : Int) - (study_start_date.month : Int)
      let months_since_last_export :=
        Int.emod months_since_study_start (db_update_frequency_in_months : Int)
      let months_until_next_export :=
        if months_since_last_export = 0 then (db_update_frequency_in_months : Int)
        else (db_update_frequency_in_months : Int) - months_since_last_export
      some ((addMonths e months_until_next_export).withDay 1)

/-- simulation.py `is_event_abstractable`: an event is ready for abstraction
when it has not been abstracted yet and has been exported on or before the
assessment date. -/
def is_event_abstractable (event_date_exported event_date_abstracted : Option Date)
    (assessment_date : Date) : Bool :=
  event_date_abstracted.isNone
    && (match event_date_exported with
        | none => false
        | some ex => decide (Date.Le ex assessment_date))

/-- simulation.py `is_patient_abstractable`: some event of the patient is
ready for abstraction. -/
def is_patient_abstractable (p : Patient) (assessment_date : Date) : Bool :=
  [EventKind.diagnosis, EventKind.drug, EventKind.death].any (fun e =>
    is_event_abstractable (eventExported p e) (eventAbstracted p e) assessment_date)

/-- simulation.py `is_patient_fully_abstracted`: every occurred event of the
patient's checklist has an abstracted date (the source lists the drug event
twice; the duplicate is kept). -/
def is_patient_fully_abstracted (p : Patient) : Bool :=
  let events : List (Option Date × Option Date) :=
    [(some p.diagnosis_date, p.diagnosis_date_abstracted),
     (p.drug_date, p.drug_date_abstracted),
     (p.drug_date, p.drug_date_abstracted),
     (p.death_date, p.death_date_abstracted)]
  events.all (fun q => !(q.1.isSome && q.2.isNone))

/-- simulation.py `set_events_abstracted_date`: when the event is ready for
abstraction, set its abstracted date to the exported date plus a uniform
latency from the event's configured range; otherwise leave the patient
unchanged (the random draw happens only inside the guarded branch). -/
def set_events_abstracted_date (sim_params : SimParams) (patient : Patient)
    (event : EventKind) (assessment_date : Date) (g : RandOracle) :
    Patient × RandOracle :=
  match eventExported patient event with
  | none => (patient, g)
  | some event_exported_date =>
    if is_event_abstractable (some event_exported_date) (eventAbstracted patient event)
        assessment_date then
      let latency_range := eventLatencyRange sim_params event
      let abstraction_latency := randint latency_range.1 latency_range.2 (randHeadN g)
      (setEventAbstracted patient event
        (some (addDays event_exported_date abstraction_latency)), randTail g)
    else (patient, g)

/-- One selected patient's pass over its three events, in source order. -/
def abstract_patient_events (sim_params : SimParams) (assessment_date : Date)
    (patient : Patient) (g : RandOracle) : Patient × RandOracle :=
  let (p1, g1) := set_events_abstracted_date sim_params patient .diagnosis assessment_date g
  let (p2, g2) := set_events_abstracted_date sim_params p1 .drug assessment_date g1
  set_events_abstracted_date sim_params p2 .death assessment_date g2

/-- Python `random.sample(pool, k)` over patient indices: `k` distinct
positions drawn without replacement, each draw oracle-directed. -/
def sampleIdx (g : RandOracle) (pool : List Nat) (k : Nat) : List Nat × RandOracle :=
  match k, pool with
  | 0, _ => ([], g)
  | _ + 1, [] => ([], g)
  | k + 1, a :: rest =>
    let i := randHeadN g % (a :: rest).length
    let x := (a :: rest).getD i 0
    let res := sampleIdx (randTail g) ((a :: rest).eraseIdx i) k
    (x :: res.1, res.2)

/-- In-place mutation of the selected patients (the source mutates shared
`Patient` objects; the model updates the cohort list at the selected
indices). -/
def abstract_selected (sim_params : SimParams) (assessment_date : Date) :
    List Nat → List Patient → RandOracle → List Patient × RandOracle
  | [], pats, g => (pats, g)
  | i :: rest, pats, g =>
    let pt := pats.getD i dummyPatient
    let res := abstract_patient_events sim_params assessment_date pt g
    abstract_selected sim_params assessment_date rest (pats.set i res.1) res.2

/-- Indices of the patients with at least one abstractable event. -/
def abstractable_indices (pats : List Patient) (assessment_date : Date) : List Nat :=
  (List.range pats.length).filter
    (fun i => is_patient_abstractable (pats.getD i dummyPatient) assessment_date)

/-- State of the abstraction loop of simulation.py
`generate_abstracted_dates`. -/
structure AbsState where
  patients : List Patient
  assessment_date : Date
  oracle : RandOracle

/-- One iteration body of the abstraction loop: sample at most
`patients_abstracted_per_month * db_update_frequency_in_months` abstractable
patients, abstract their ready events, and advance the assessment date by
one cadence step. -/
def abstraction_step (sim_params : SimParams) (s : AbsState) (abstr : List Nat) : AbsState :=
  let k := min (sim_params.patients_abstracted_per_month * sim_params.db_update_frequency_in_months)
    abstr.length
  let res1 := sampleIdx s.oracle abstr k
  let res2 := abstract_selected sim_params s.assessment_date res1.1 s.patients res1.2
  { patients := res2.1,
    assessment_date := calculate_next_abstraction_assessment_date s.assessment_date sim_params,
    oracle := res2.2 }

/-- simulation.py `generate_abstracted_dates`, body of the `while True` loop
with an explicit fuel parameter: `none` means the loop had not terminated
after `fuel` iterations (the source has no iteration bound at all and would
still be running). -/
def generate_abstracted_dates_fuel (sim_params : SimParams) :
    Nat → AbsState → Option (List Patient)
  | 0, _ => none
  | fuel + 1, s =>
    let abstr := abstractable_indices s.patients s.assessment_date
    if abstr = [] then some s.patients
    else
      let s' := abstraction_step sim_params s abstr
      if s'.patients.all is_patient_fully_abstracted then some s'.patients
      else generate_abstracted_dates_fuel sim_params fuel s'

/-- simulation.py `generate_abstracted_dates`: run the loop from the initial
assessment date `calculate_next_abstraction_assessment_date(study_start)`. -/
def generate_abstracted_dates (sim_params : SimParams) (patients : List Patient)
    (g : RandOracle) (fuel : Nat) : Option (List Patient) :=
  generate_abstracted_dates_fuel sim_params fuel
    { patients := patients,
      assessment_date :=
        calculate_next_abstraction_assessment_date sim_params.study_start_date sim_params,
      oracle := g }

/-- Export-date assignment for one patient (body of the loop of simulation.py
`generate_exported_dates`): diagnosis and drug use their occurred dates, the
death event uses `death_date_recorded`. -/
def set_exported_dates (sim_params : SimParams) (patient : Patient) : Patient :=
  { patient with
    diagnosis_date_exported := calculate_exported_date (some patient.diagnosis_date)
      sim_params.study_start_date sim_params.db_update_frequency_in_months,
    drug_date_exported := calculate_exported_date patient.drug_date
      sim_params.study_start_date sim_params.db_update_frequency_in_months,
    death_date_exported := calculate_exported_date patient.death_date_recorded
      sim_params.study_start_date sim_params.db_update_frequency_in_months }

/-- simulation.py `generate_exported_dates`. -/
def generate_exported_dates (patients : List Patient) (sim_params : SimParams) : List Patient :=
  patients.map (set_exported_dates sim_params)

/-- Cumulative-weight walk used by the spec-modelled `select_drug`. -/
def pickByWeight : List Drug → List Nat → Nat → Drug
  | [], _, _ => dummyDrug
  | d :: _, [], _ => d
  | d :: rest, w :: ws, draw => if draw < w then d else pickByWeight rest ws (draw - w)

/-- Modelled from the spec: `simutils.select_drug` is called by
`generate_patient_cohort` but no definition of it exists in the repository's
source tree.  Spec section 4.3 says: drug selected by weighted random choice
over configured Drugs, the weights being the per-drug sampling weights,
selection independent per patient.  A drug's total sampling weight is taken
as the sum of its configured integer weights and the oracle draw walks the
cumulative weights; the diagnosis date and observation window arguments of
the source call site are accepted and unused. -/
def select_drug (diagnosis_date : Date) (drugs : List Drug)
    (observation_start_date observation_end_date : Date) (r : Nat) : Drug :=
  let weights := drugs.map (fun d => d.probability_weights.foldl (· + ·) 0)
  let total := weights.foldl (· + ·) 0
  let draw := if total = 0 then 0 else r % total
  pickByWeight drugs weights draw

/-- One patient of simulation.py `generate_patient_cohort`: diagnosis drawn
uniformly in the observation window, drug selected, death sampled from the
drug's survival curve, death-recording latency applied only when a death was
sampled (`simulate_delayed_recording_date` of an unset date is unset without
using its draw, and the oracle advances only when the recording draw was
consumed, as in the source's conditional expression), treatment date drawn
from the drug's start range; all exported and abstracted fields start
unset. -/
def generate_patient (patient_id : Nat) (sim_params : SimParams) (g : RandOracle) :
    Patient × RandOracle :=
  let diagnosis_date := generate_random_date sim_params.observation_start_date
    sim_params.observation_end_date (randHeadN g)
  let g1 := randTail g
  let drug := select_drug diagnosis_date sim_params.drugs sim_params.observation_start_date
    sim_params.observation_end_date (randHeadN g1)
  let g2 := randTail g1
  let death_date := determine_death_date diagnosis_date drug.survival_probabilities (randHeadF g2)
  let g3 := randTail g2
  let death_date_recorded := simulate_delayed_recording_date death_date
    sim_params.death_date_recording_latency_range (randHeadN g3)
  let g4 := if death_date.isSome then randTail g3 else g3
  let drug_date := determine_treatment_date diagnosis_date death_date drug.start_date_range
    (randHeadN g4)
  ({ patient_id := patient_id
     drug := drug
     diagnosis_date := diagnosis_date
     diagnosis_date_exported := none
     diagnosis_date_abstracted := none
     drug_date := drug_date
     drug_date_exported := none
     drug_date_abstracted := none
     death_date := death_date
     death_date_recorded := death_date_recorded
     death_date_exported := none
     death_date_abstracted := none }, randTail g4)

/-- Cohort members with ids `pid, pid+1, ...` (`n` of them), in generation
order. -/
def generate_cohort_from (sim_params : SimParams) :
    Nat → Nat → RandOracle → List Patient × RandOracle
  | 0, _, g => ([], g)
  | n + 1, pid, g =>
    let res := generate_patient pid sim_params g
    let rest := generate_cohort_from sim_params n (pid + 1) res.2
    (res.1 :: rest.1, rest.2)

/-- simulation.py `generate_patient_cohort`: ids 1..cohort_size in
generation order. -/
def generate_patient_cohort (sim_params : SimParams) (g : RandOracle) :
    List Patient × RandOracle :=
  generate_cohort_from sim_params sim_params.cohort_size 1 g

/-! ## Sanity checking (simulation.py `sanity_check_patient_records`)

The source raises an `Exception` at the first violation it meets; the model
returns `some message` for that first violation and `none` when every check
passes.  (The source's first check, a missing diagnosis date, is
unrepresentable here because the model's `diagnosis_date` field is not
optional, matching the dataclass's non-optional typed use.) -/

/-- Test "both dates set and the first is strictly after the second". -/
def dateAfter (a b : Option Date) : Bool :=
  match a, b with
  | some x, some y => decide (Date.Lt y x)
  | _, _ => false

def eventName : EventKind → String
  | .diagnosis => "Diagnosis"
  | .drug => "Drug"
  | .death => "Death"

/-- The three ordered checks the source performs for one event of one
patient, first failure wins. -/
def check_event (patient : Patient) (e : EventKind) : Option String :=
  let event_date := eventOccurred patient e
  let event_date_exported := eventExported patient e
  let event_date_abstracted := eventAbstracted patient e
  if dateAfter event_date event_date_exported then
    some (eventName e ++ " date is after its export date for patient "
      ++ toString patient.patient_id)
  else if dateAfter event_date_exported event_date_abstracted then
    some (eventName e ++ " export date is after its abstraction date for patient "
      ++ toString patient.patient_id)
  else if dateAfter event_date event_date_abstracted then
    some (eventName e ++ " date is after its abstraction date for patient "
      ++ toString patient.patient_id)
  else none

def check_events (patient : Patient) : Option String :=
  match check_event patient .diagnosis with
  | some m => some m
  | none =>
    match check_event patient .drug with
    | some m => some m
    | none => check_event patient .death

/-- All checks for one patient, in source order: the death-recording check,
then the per-event checks. -/
def check_patient (patient : Patient) : Option String :=
  if patient.death_date.isSome
      && (patient.death_date_recorded.isNone
          || dateAfter patient.death_date patient.death_date_recorded) then
    some ("Death date is recorded incorrectly for patient " ++ toString patient.patient_id)
  else check_events patient

/-- simulation.py `sanity_check_patient_records`: walks the cohort and raises
at the first violating patient (`some message`); `none` when the cohort is
consistent. -/
def sanity_check_patient_records : List Patient → Option String
  | [] => none
  | p :: rest =>
    match check_patient p with
    | some m => some m
    | none => sanity_check_patient_records rest

/-- The three-phase pipeline of simulation.py `run_simulation` before the
sanity check: generate the cohort, assign export dates, run the abstraction
loop. -/
def pipeline (sim_params : SimParams) (g : RandOracle) (fuel : Nat) :
    Option (List Patient) :=
  let res := generate_patient_cohort sim_params g
  let exported := generate_exported_dates res.1 sim_params
  generate_abstracted_dates sim_params exported res.2 fuel

/-- simulation.py `run_simulation`: runs the pipeline, then the sanity check
inside `try/except` — a violation is only printed, the run always completes
and returns the cohort table.  The model returns the finished cohort (the
rows of the output table) together with the message of the first violation,
if the checker raised one. -/
def run_simulation (sim_params : SimParams) (g : RandOracle) (fuel : Nat) :
    Option (List Patient × Option String) :=
  match pipeline sim_params g fuel with
  | none => none
  | some final => some (final, sanity_check_patient_records final)

/-! ## Concrete curve and configuration fixtures used by the claims -/

/-- The survival curve of the spec's scenarios: 85 percent at year 1, 45 at
year 3, 32 at year 5. -/
def survivalCurveC : List (Nat × Frac) := [(1, ⟨85, 100⟩), (3, ⟨45, 100⟩), (5, ⟨32, 100⟩)]

/-! ## Claim C10 -/

/-- C10: `calculate_missing_probabilities` does not clamp its linear
extrapolation to `[0, 1]`: the curve `{1: 0.85, 3: 0.45, 5: 0.32}` extended
to a 10-year observation period maps year 10 to the strictly negative value
`-0.005` (the last two provided points give slope `-0.065` per year, and
`0.32 - 0.065 * 5 = -0.005`; the float artifact `-0.0050000000000000044` of
the source's regression test is this exact value). -/
theorem claim_C10 :
    dictLookup (calculate_missing_probabilities survivalCurveC 10) 10 = some ⟨-1, 200⟩
      ∧ Frac.Lt ⟨-1, 200⟩ ⟨0, 1⟩ := by
  constructor
  · decide
  · decide

/-! ## Claims C7 and C5 -/

/-- Evaluation shape of the interpolant built from the scenario curve: the
knots are `0.32 < 0.45 < 0.85 < 1`, so the sampler is `NaN` exactly below
`0.32` and above `1`. -/
theorem interp_sample_curveC_eq (u : Frac) :
    interp_sample survivalCurveC u
      = if Frac.Lt u ⟨32, 100⟩ ∨ Frac.Lt ⟨1, 1⟩ u then none
        else some (pchipEvalCell
          [⟨32, 100⟩, ⟨45, 100⟩, ⟨85, 100⟩, ⟨1, 1⟩]
          [⟨5, 1⟩, ⟨3, 1⟩, ⟨1, 1⟩, ⟨0, 1⟩]
          (pchipCellIdx [⟨32, 100⟩, ⟨45, 100⟩, ⟨85, 100⟩, ⟨1, 1⟩] u) u) := rfl

/-- C7 (amended): for the survival curve `{1: 0.85, 3: 0.45, 5: 0.32}`, the
interpolant maps the exact anchor draw `u = 0.85` to year offset `1` (the
year whose survival probability is 0.85), not 0; and every draw strictly
below the lowest provided probability `0.32` is undefined, so
`determine_death_date` returns no death date there. -/
theorem claim_C7 (u : Frac) (diag : Date) (h : Frac.Lt u ⟨32, 100⟩) :
    interp_sample survivalCurveC ⟨85, 100⟩ = some ⟨1, 1⟩
      ∧ interp_sample survivalCurveC u = none
      ∧ determine_death_date diag survivalCurveC u = none := by
  have h2 : interp_sample survivalCurveC u = none := by
    rw [interp_sample_curveC_eq, if_pos (Or.inl h)]
  refine ⟨by decide, h2, ?_⟩
  unfold determine_death_date
  rw [h2]

/-- C7 counterexample: the claim's asserted anchor value is wrong — the draw
`u = 0.85` does not map to year offset 0. -/
theorem claim_C7_counterexample :
    interp_sample survivalCurveC ⟨85, 100⟩ ≠ some (Frac.ofInt 0) := by decide

/-- C7 witness: the theorem instantiated at `u = 0`, `diag = 2020-01-01`. -/
theorem claim_C7_witness :
    interp_sample survivalCurveC ⟨0, 1⟩ = none
      ∧ determine_death_date ⟨2020, 1, 1⟩ survivalCurveC ⟨0, 1⟩ = none :=
  ⟨(claim_C7 ⟨0, 1⟩ ⟨2020, 1, 1⟩ (by decide)).2.1,
   (claim_C7 ⟨0, 1⟩ ⟨2020, 1, 1⟩ (by decide)).2.2⟩

/-- C5 (amended): `determine_death_date` returns no date exactly when the
draw is outside the interpolable probability range (for the scenario curve:
below 0.32 or above 1); otherwise it returns
`diagnosis_date + floor(year_offset * 365.25)` days — Python's
`date + timedelta(days=...)` keeps whole days only, truncating toward
negative infinity rather than rounding to the nearest day.  At the knot draw
`u = 0.45` the offset is exactly 3 years = 1095.75 days, which the code turns
into 1095 days where rounding would give 1096. -/
theorem claim_C5 (diag : Date) (u : Frac) :
    (determine_death_date diag survivalCurveC u = none
        ↔ (Frac.Lt u ⟨32, 100⟩ ∨ Frac.Lt ⟨1, 1⟩ u))
      ∧ (∀ yd : Frac, interp_sample survivalCurveC u = some yd →
          determine_death_date diag survivalCurveC u
            = some (addDays diag (Frac.floor (Frac.mul yd ⟨1461, 4⟩))))
      ∧ interp_sample survivalCurveC ⟨9, 20⟩ = some ⟨3, 1⟩
      ∧ Frac.floor (Frac.mul ⟨3, 1⟩ ⟨1461, 4⟩) = 1095
      ∧ Frac.round (Frac.mul ⟨3, 1⟩ ⟨1461, 4⟩) = 1096 := by
  refine ⟨?_, ?_, by decide, by decide, by decide⟩
  · unfold determine_death_date
    rw [interp_sample_curveC_eq]
    split_ifs with hc
    · simp [hc]
    · simp [hc]
  · intro yd hy
    unfold determine_death_date
    rw [hy]

/-- C5 counterexample: at the concrete draw `u = 0.45` on the scenario curve
the spec's rounding rule and the code's truncation produce different death
dates (2023-01-01 versus 2022-12-31 from a 2020-01-01 diagnosis). -/
theorem claim_C5_counterexample :
    determine_death_date_specRound ⟨2020, 1, 1⟩ survivalCurveC ⟨9, 20⟩
      ≠ determine_death_date ⟨2020, 1, 1⟩ survivalCurveC ⟨9, 20⟩ := by
  have hi : interp_sample survivalCurveC ⟨9, 20⟩ = some ⟨3, 1⟩ := by decide
  have h1 : determine_death_date_specRound ⟨2020, 1, 1⟩ survivalCurveC ⟨9, 20⟩
      = some (addDays ⟨2020, 1, 1⟩ 1096) := by
    unfold determine_death_date_specRound
    rw [hi]
    dsimp only
    have : Frac.round (Frac.mul ⟨3, 1⟩ ⟨1461, 4⟩) = 1096 := by decide
    rw [this]
  have h2 : determine_death_date ⟨2020, 1, 1⟩ survivalCurveC ⟨9, 20⟩
      = some (addDays ⟨2020, 1, 1⟩ 1095) := by
    unfold determine_death_date
    rw [hi]
    dsimp only
    have : Frac.floor (Frac.mul ⟨3, 1⟩ ⟨1461, 4⟩) = 1095 := by decide
    rw [this]
  rw [h1, h2]
  intro hc
  have hv : Date.Valid (⟨2020, 1, 1⟩ : Date) := by decide
  have s1 := @addDays_serial ⟨2020, 1, 1⟩ 1096 hv (by omega)
  have s2 := @addDays_serial ⟨2020, 1, 1⟩ 1095 hv (by omega)
  have : addDays ⟨2020, 1, 1⟩ 1096 = addDays ⟨2020, 1, 1⟩ 1095 := Option.some.inj hc
  rw [this] at s1
  omega

/-- C5 witness: the theorem instantiated at `diag = 2020-01-01`, `u = 0.45`,
combining its conjuncts into the concrete truncated death date. -/
theorem claim_C5_witness :
    determine_death_date ⟨2020, 1, 1⟩ survivalCurveC ⟨9, 20⟩
      = some (addDays ⟨2020, 1, 1⟩ 1095) := by
  have h := claim_C5 ⟨2020, 1, 1⟩ ⟨9, 20⟩
  have h2 := h.2.1 ⟨3, 1⟩ h.2.2.1
  rw [h2, h.2.2.2.1]

/-! ## Export-date characterization (claims C2, C4; shared with C3) -/

theorem monthIdx_withDayClamp (d : Date) (n : Nat) :
    (d.withDayClamp n).monthIdx = d.monthIdx := rfl

theorem monthOk_withDayClamp {d : Date} (h : Date.MonthOk d) (n : Nat) :
    Date.MonthOk (d.withDayClamp n) := h

theorem calculate_exported_date_none (s : Date) (f : Nat) :
    calculate_exported_date none s f = none := rfl

/-- Closed form of `calculate_exported_date` in its on-or-after-study-start
branch, with the month arithmetic restated over natural numbers. -/
theorem calculate_exported_date_main {e s : Date} (f : Nat) (hf : 1 ≤ f)
    (he : Date.MonthOk e) (hs : Date.MonthOk s) (hge : ¬ Date.Lt e s) :
    calculate_exported_date (some e) s f
      = some ((addMonths e (((if (e.monthIdx - s.monthIdx) % f = 0 then f
          else f - (e.monthIdx - s.monthIdx) % f : Nat)) : Int)).withDay 1) := by
  have hidx : s.monthIdx ≤ e.monthIdx :=
    monthIdx_le_of_le hs he (Date.le_total_of_not_lt hge)
  have hms : ((e.year : Int) - (s.year : Int)) * 12 + (e.month : Int) - (s.month : Int)
      = ((e.monthIdx - s.monthIdx : Nat) : Int) := by
    obtain ⟨he1, he2⟩ := he
    obtain ⟨hs1, hs2⟩ := hs
    simp only [Date.monthIdx] at hidx ⊢
    omega
  unfold calculate_exported_date
  dsimp only
  rw [if_neg hge, hms]
  rw [show Int.emod ((e.monthIdx - s.monthIdx : Nat) : Int) ((f : Nat) : Int)
      = (((e.monthIdx - s.monthIdx) % f : Nat) : Int) from (Int.natCast_mod _ _).symm]
  by_cases hr : (e.monthIdx - s.monthIdx) % f = 0
  · rw [if_pos (by rw [hr]; rfl), if_pos hr]
  · have hrz : (((e.monthIdx - s.monthIdx) % f : Nat) : Int) ≠ 0 := by
      exact_mod_cast hr
    rw [if_neg hrz, if_neg hr]
    have hlt : (e.monthIdx - s.monthIdx) % f < f := Nat.mod_lt _ (by omega)
    have hcast : (((f - (e.monthIdx - s.monthIdx) % f : Nat)) : Int)
        = ((f : Nat) : Int) - (((e.monthIdx - s.monthIdx) % f : Nat) : Int) :=
      Int.ofNat_sub hlt.le
    rw [← hcast]

theorem day_addMonths_of_day_one {d : Date} (hd : d.day = 1) (k : Int) :
    (addMonths d k).day = 1 := by
  unfold addMonths
  dsimp only
  have := daysInMonth_ge
    ((((d.year : Int) * 12 + (d.month : Int) - 1 + k).toNat) / 12)
    ((((d.year : Int) * 12 + (d.month : Int) - 1 + k).toNat) % 12 + 1)
  omega

/-- Every exported date is strictly after its event date, lands with its
month in range, and (in both branches) on the first day of a month. -/
theorem calculate_exported_date_lt {e s : Date} {f : Nat} {x : Date}
    (hf : 1 ≤ f) (he : Date.MonthOk e) (hs : Date.MonthOk s)
    (hx : calculate_exported_date (some e) s f = some x) :
    Date.Lt e x ∧ Date.MonthOk x ∧ x.day = 1 := by
  by_cases hlt : Date.Lt e s
  · have hxeq : x = addMonths (s.withDay 1) (f : Int) := by
      unfold calculate_exported_date at hx
      dsimp only at hx
      rw [if_pos hlt] at hx
      exact (Option.some.inj hx).symm
    have hidxe : e.monthIdx ≤ s.monthIdx :=
      monthIdx_le_of_le he hs (Date.le_of_lt hlt)
    have hidxx : (addMonths (s.withDay 1) (f : Int)).monthIdx
        = s.monthIdx + f := by
      rw [monthIdx_addMonths (monthOk_withDay hs 1) (by omega), monthIdx_withDay,
        Int.toNat_natCast]
    subst hxeq
    refine ⟨lt_of_monthIdx_lt he (monthOk_addMonths _ _) (by omega),
      monthOk_addMonths _ _, day_addMonths_of_day_one rfl _⟩
  · have hmain := calculate_exported_date_main f hf he hs hlt
    rw [hmain] at hx
    have hxeq := (Option.some.inj hx).symm
    have hmu : 1 ≤ (if (e.monthIdx - s.monthIdx) % f = 0 then f
        else f - (e.monthIdx - s.monthIdx) % f) := by
      split
      · omega
      · have : (e.monthIdx - s.monthIdx) % f < f := Nat.mod_lt _ (by omega)
        omega
    have hidxx : x.monthIdx = e.monthIdx + (if (e.monthIdx - s.monthIdx) % f = 0 then f
        else f - (e.monthIdx - s.monthIdx) % f) := by
      rw [hxeq, monthIdx_withDay, monthIdx_addMonths he (by omega), Int.toNat_natCast]
    refine ⟨lt_of_monthIdx_lt he ?_ (by omega), ?_, ?_⟩
    · rw [hxeq]; exact monthOk_withDay (monthOk_addMonths _ _) 1
    · rw [hxeq]; exact monthOk_withDay (monthOk_addMonths _ _) 1
    · rw [hxeq]; rfl

theorem monthIdx_lt_of_lt_day1 {e b : Date} (he : Date.MonthOk e) (hb : Date.MonthOk b)
    (hed : 1 ≤ e.day) (hbd : b.day = 1) (h : Date.Lt e b) : e.monthIdx < b.monthIdx := by
  obtain ⟨he1, he2⟩ := he
  obtain ⟨hb1, hb2⟩ := hb
  unfold Date.Lt at h
  unfold Date.monthIdx
  omega

/-! ## Claim C2 -/

/-- C2: `calculate_exported_date` maps an unset event date to an unset
export; for an event on or after the study start it returns the first day of
the month that is the next multiple of `cadence_months` past the study
start's month and strictly after the event date (an event in a boundary
month rolls to the next boundary); and the spec scenario
(study start 2020-01-01, cadence 3, event 2020-02-15) exports on
2020-04-01. -/
theorem claim_C2 (e s : Date) (f : Nat) (hv : Date.Valid e) (hs : Date.Valid s)
    (hf : 1 ≤ f) (hge : ¬ Date.Lt e s) :
    calculate_exported_date none s f = none
      ∧ (∃ x, calculate_exported_date (some e) s f = some x
          ∧ x.day = 1
          ∧ (∃ j : Nat, 1 ≤ j ∧ x.monthIdx = s.monthIdx + f * j)
          ∧ Date.Lt e x
          ∧ (∀ b : Date, Date.MonthOk b → b.day = 1
              → (∃ jb : Nat, b.monthIdx = s.monthIdx + f * jb)
              → Date.Lt e b → Date.Le x b))
      ∧ calculate_exported_date (some ⟨2020, 2, 15⟩) ⟨2020, 1, 1⟩ 3 = some ⟨2020, 4, 1⟩ := by
  have he : Date.MonthOk e := ⟨hv.2.1, hv.2.2.1⟩
  have hsm : Date.MonthOk s := ⟨hs.2.1, hs.2.2.1⟩
  refine ⟨rfl, ?_, by decide⟩
  have hidx : s.monthIdx ≤ e.monthIdx :=
    monthIdx_le_of_le hsm he (Date.le_total_of_not_lt hge)
  have hmain := calculate_exported_date_main f hf he hsm hge
  have hrlt0 : (e.monthIdx - s.monthIdx) % f < f := Nat.mod_lt _ (by omega)
  have hdm0 : f * ((e.monthIdx - s.monthIdx) / f) + (e.monthIdx - s.monthIdx) % f
      = e.monthIdx - s.monthIdx := Nat.div_add_mod _ f
  generalize hgen : (e.monthIdx - s.monthIdx) % f = r at hmain hrlt0 hdm0
  obtain ⟨q, hdm⟩ : ∃ q, f * q + r = e.monthIdx - s.monthIdx :=
    ⟨(e.monthIdx - s.monthIdx) / f, hdm0⟩
  clear hdm0 hgen
  have hmu1 : 1 ≤ (if r = 0 then f else f - r : Nat) := by split <;> omega
  have hmoA : Date.MonthOk (addMonths e ((if r = 0 then f else f - r : Nat) : Int)) :=
    monthOk_addMonths _ _
  have hidxA : (addMonths e ((if r = 0 then f else f - r : Nat) : Int)).monthIdx
      = s.monthIdx + (f * q + f) := by
    rw [monthIdx_addMonths he (by omega), Int.toNat_natCast]
    split <;> omega
  refine ⟨(addMonths e ((if r = 0 then f else f - r : Nat) : Int)).withDay 1,
    hmain, rfl, ?_, ?_, ?_⟩
  · refine ⟨q + 1, by omega, ?_⟩
    rw [monthIdx_withDay, hidxA, Nat.mul_succ]
  · refine lt_of_monthIdx_lt he (monthOk_withDay hmoA 1) ?_
    rw [monthIdx_withDay, hidxA]
    omega
  · intro b hbm hbd ⟨jb, hjb⟩ hltb
    have hbidx : e.monthIdx < b.monthIdx :=
      monthIdx_lt_of_lt_day1 he hbm hv.2.2.2.1 hbd hltb
    have hqjb : q < jb := by
      by_contra hc
      push_neg at hc
      have : f * jb ≤ f * q := Nat.mul_le_mul_left f hc
      omega
    have hjb1 : f * (q + 1) ≤ f * jb := Nat.mul_le_mul_left f (by omega)
    rw [Nat.mul_succ] at hjb1
    rcases Nat.lt_or_ge ((addMonths e ((if r = 0 then f else f - r : Nat) : Int)).withDay 1).monthIdx
        b.monthIdx with hclt | hcge
    · exact Date.le_of_lt (lt_of_monthIdx_lt (monthOk_withDay hmoA 1) hbm hclt)
    · have heq2 : (addMonths e ((if r = 0 then f else f - r : Nat) : Int)).monthIdx
          = b.monthIdx := by
        rw [monthIdx_withDay] at hcge
        omega
      obtain ⟨hm1, hm2⟩ := hmoA
      obtain ⟨hb1, hb2⟩ := hbm
      simp only [Date.monthIdx] at heq2
      have hy : (addMonths e ((if r = 0 then f else f - r : Nat) : Int)).year = b.year := by
        omega
      have hmn : (addMonths e ((if r = 0 then f else f - r : Nat) : Int)).month = b.month := by
        omega
      exact Or.inr ⟨hy, hmn, hbd.symm⟩

/-- C2 witness: the theorem instantiated at the spec scenario. -/
theorem claim_C2_witness :
    calculate_exported_date (some ⟨2020, 2, 15⟩) ⟨2020, 1, 1⟩ 3 = some ⟨2020, 4, 1⟩ :=
  (claim_C2 ⟨2020, 2, 15⟩ ⟨2020, 1, 1⟩ 3 (by decide) (by decide) (by decide) (by decide)).2.2

/-! ## Claim C4 -/

/-- Minimal configuration fixture: one drug, monthly cadence, zero
latencies, one-patient cohort, one-month observation window. -/
def drugA : Drug := ⟨"A", [(1, ⟨85, 100⟩)], (0, 0), [1]⟩

def paramsOne : SimParams :=
  { observation_start_date := ⟨2020, 1, 1⟩
    observation_end_date := ⟨2020, 2, 1⟩
    study_start_date := ⟨2020, 1, 1⟩
    cohort_size := 1
    db_update_frequency_in_months := 1
    death_date_recording_latency_range := (0, 0)
    patients_abstracted_per_month := 1
    diagnosis_date_abstraction_latency_range := (0, 0)
    drug_date_abstraction_latency_range := (0, 0)
    death_date_abstraction_latency_range := (0, 0)
    drugs := [drugA] }

/-- The fixture with the spec scenario's three-month export cadence. -/
def paramsCadence3 : SimParams :=
  { paramsOne with db_update_frequency_in_months := 3 }

/-- Constant oracle: integer draws 0, uniform draws one half. -/
def oracleZero : RandOracle := fun _ => (0, ⟨1, 2⟩)

/-- C4 (amended): every assessment date produced by
`calculate_next_abstraction_assessment_date` falls on the SECOND day of a
month (`relativedelta(..., day=2)`), exactly `db_update_frequency_in_months`
months past the previous assessment month; the initial assessment date of
`generate_abstracted_dates` is this function applied to the study start, so
it is the second day of the month of the first export-cadence boundary after
the study start, not the boundary's first day. -/
theorem claim_C4 (d : Date) (sp : SimParams) (hm : Date.MonthOk d)
    (hf : 1 ≤ sp.db_update_frequency_in_months) :
    (calculate_next_abstraction_assessment_date d sp).day = 2
      ∧ (calculate_next_abstraction_assessment_date d sp).monthIdx
          = d.monthIdx + sp.db_update_frequency_in_months
      ∧ Date.MonthOk (calculate_next_abstraction_assessment_date d sp) := by
  unfold calculate_next_abstraction_assessment_date
  refine ⟨?_, ?_, monthOk_withDayClamp (monthOk_addMonths _ _) 2⟩
  · show (Date.withDayClamp _ 2).day = 2
    unfold Date.withDayClamp
    have := daysInMonth_ge (addMonths d (sp.db_update_frequency_in_months : Int)).year
      (addMonths d (sp.db_update_frequency_in_months : Int)).month
    show min (daysInMonth _ _) 2 = 2
    omega
  · rw [monthIdx_withDayClamp, monthIdx_addMonths hm (by omega), Int.toNat_natCast]

/-- C4 counterexample: for study start 2020-01-01 and a three-month cadence
the initial assessment date of the abstraction loop is 2020-04-02 — the
second day of the boundary month, not the first. -/
theorem claim_C4_counterexample :
    calculate_next_abstraction_assessment_date ⟨2020, 1, 1⟩ paramsCadence3 = ⟨2020, 4, 2⟩
      ∧ (calculate_next_abstraction_assessment_date ⟨2020, 1, 1⟩ paramsCadence3).day ≠ 1 := by
  decide

/-- C4 witness: the theorem instantiated at 2021-11-05 with the three-month
cadence fixture. -/
theorem claim_C4_witness :
    (calculate_next_abstraction_assessment_date ⟨2021, 11, 5⟩ paramsCadence3).day = 2
      ∧ (calculate_next_abstraction_assessment_date ⟨2021, 11, 5⟩ paramsCadence3).monthIdx
          = Date.monthIdx ⟨2021, 11, 5⟩ + 3 :=
  ⟨(claim_C4 ⟨2021, 11, 5⟩ paramsCadence3 (by decide) (by decide)).1,
   (claim_C4 ⟨2021, 11, 5⟩ paramsCadence3 (by decide) (by decide)).2.1⟩

/-! ## Claim C8 -/

theorem generate_random_date_bounds {a b : Date} (r : Nat) (ha : Date.Valid a)
    (hb : Date.Valid b) (h : Date.Lt a b) :
    Date.Le a (generate_random_date a b r) ∧ Date.Lt (generate_random_date a b r) b := by
  have hs := serial_lt_of_lt ha hb h
  have hk := @npRandint_bounds 0 ((b.serial : Int) - (a.serial : Int)) r (by omega)
  unfold generate_random_date
  have h0 : 0 ≤ npRandint 0 ((b.serial : Int) - (a.serial : Int)) r := hk.1
  have hval := addDays_valid ha h0
  have hser := addDays_serial ha h0
  constructor
  · exact le_of_serial_le ha hval (by omega)
  · exact lt_of_serial_lt hval hb (by omega)

theorem mem_generate_cohort_from {sp : SimParams} {n pid : Nat} {g : RandOracle} {pt : Patient}
    (h : pt ∈ (generate_cohort_from sp n pid g).1) :
    ∃ pid' g', pt = (generate_patient pid' sp g').1 := by
  induction n generalizing pid g with
  | zero => simp [generate_cohort_from] at h
  | succ m ih =>
    simp only [generate_cohort_from, List.mem_cons] at h
    rcases h with h | h
    · exact ⟨pid, g, h⟩
    · exact ih h

/-- C8: `generate_random_date` always lands in the half-open window
`[start, end)` whenever the window is non-empty, and consequently every
generated patient's (mandatory) diagnosis date lies in
`[observation_start, observation_end)`. -/
theorem claim_C8 (start_date end_date : Date) (r : Nat) (sp : SimParams) (g : RandOracle)
    (h1 : Date.Valid start_date) (h2 : Date.Valid end_date)
    (h3 : Date.Lt start_date end_date)
    (h4 : Date.Valid sp.observation_start_date) (h5 : Date.Valid sp.observation_end_date)
    (h6 : Date.Lt sp.observation_start_date sp.observation_end_date) :
    (Date.Le start_date (generate_random_date start_date end_date r)
        ∧ Date.Lt (generate_random_date start_date end_date r) end_date)
      ∧ ∀ pt ∈ (generate_patient_cohort sp g).1,
          Date.Le sp.observation_start_date pt.diagnosis_date
            ∧ Date.Lt pt.diagnosis_date sp.observation_end_date := by
  refine ⟨generate_random_date_bounds r h1 h2 h3, ?_⟩
  intro pt hmem
  obtain ⟨pid', g', rfl⟩ := mem_generate_cohort_from hmem
  have hd : (generate_patient pid' sp g').1.diagnosis_date
      = generate_random_date sp.observation_start_date sp.observation_end_date
        (randHeadN g') := rfl
  rw [hd]
  exact generate_random_date_bounds _ h4 h5 h6

/-- C8 witness: the theorem instantiated on the fixture configuration and a
concrete draw. -/
theorem claim_C8_witness :
    Date.Le ⟨2020, 1, 1⟩ (generate_random_date ⟨2020, 1, 1⟩ ⟨2020, 2, 1⟩ 5)
      ∧ Date.Lt (generate_random_date ⟨2020, 1, 1⟩ ⟨2020, 2, 1⟩ 5) ⟨2020, 2, 1⟩ :=
  (claim_C8 ⟨2020, 1, 1⟩ ⟨2020, 2, 1⟩ 5 paramsOne oracleZero (by decide) (by decide)
    (by decide) (by decide) (by decide) (by decide)).1

/-! ## Frame and write-once properties of the abstraction loop (claim C9) -/

/-- A set abstracted date is never overwritten (write-once). -/
def abstractedPreserved (a b : Option Date) : Prop := ∀ x, a = some x → b = some x

/-- Relation between a patient before and after any amount of abstraction
processing: identity, drug, every occurred/recorded/exported date are
unchanged, and each abstracted date is preserved once set. -/
def patientFrame (p q : Patient) : Prop :=
  q.patient_id = p.patient_id ∧ q.drug = p.drug ∧ q.diagnosis_date = p.diagnosis_date
    ∧ q.drug_date = p.drug_date ∧ q.death_date = p.death_date
    ∧ q.death_date_recorded = p.death_date_recorded
    ∧ q.diagnosis_date_exported = p.diagnosis_date_exported
    ∧ q.drug_date_exported = p.drug_date_exported
    ∧ q.death_date_exported = p.death_date_exported
    ∧ abstractedPreserved p.diagnosis_date_abstracted q.diagnosis_date_abstracted
    ∧ abstractedPreserved p.drug_date_abstracted q.drug_date_abstracted
    ∧ abstractedPreserved p.death_date_abstracted q.death_date_abstracted

theorem abstractedPreserved_refl (a : Option Date) : abstractedPreserved a a :=
  fun _ h => h

theorem abstractedPreserved_trans {a b c : Option Date} (h1 : abstractedPreserved a b)
    (h2 : abstractedPreserved b c) : abstractedPreserved a c :=
  fun x h => h2 x (h1 x h)

theorem patientFrame_refl (p : Patient) : patientFrame p p :=
  ⟨rfl, rfl, rfl, rfl, rfl, rfl, rfl, rfl, rfl,
   abstractedPreserved_refl _, abstractedPreserved_refl _, abstractedPreserved_refl _⟩

theorem patientFrame_trans {p q r : Patient} (h1 : patientFrame p q) (h2 : patientFrame q r) :
    patientFrame p r := by
  obtain ⟨a1, a2, a3, a4, a5, a6, a7, a8, a9, a10, a11, a12⟩ := h1
  obtain ⟨b1, b2, b3, b4, b5, b6, b7, b8, b9, b10, b11, b12⟩ := h2
  refine ⟨b1.trans a1, b2.trans a2, b3.trans a3, b4.trans a4, b5.trans a5, b6.trans a6,
    b7.trans a7, b8.trans a8, b9.trans a9, abstractedPreserved_trans a10 b10,
    abstractedPreserved_trans a11 b11, abstractedPreserved_trans a12 b12⟩

theorem is_event_abstractable_none_exported (ab : Option Date) (a : Date) :
    is_event_abstractable none ab a = false := by
  unfold is_event_abstractable
  simp

theorem is_event_abstractable_abstracted_none {ex ab : Option Date} {a : Date}
    (h : is_event_abstractable ex ab a = true) : ab = none := by
  unfold is_event_abstractable at h
  cases hab : ab
  · rfl
  · rw [hab] at h
    simp at h

theorem set_events_abstracted_date_frame (sp : SimParams) (pt : Patient) (e : EventKind)
    (a : Date) (g : RandOracle) :
    patientFrame pt (set_events_abstracted_date sp pt e a g).1 := by
  unfold set_events_abstracted_date
  cases hx : eventExported pt e with
  | none => exact patientFrame_refl pt
  | some ex =>
    dsimp only
    split_ifs with habs
    · have hnone := is_event_abstractable_abstracted_none habs
      cases e with
      | diagnosis =>
        have hn : pt.diagnosis_date_abstracted = none := hnone
        exact ⟨rfl, rfl, rfl, rfl, rfl, rfl, rfl, rfl, rfl,
          fun x hx2 => by rw [hn] at hx2; exact Option.noConfusion hx2,
          fun x hx2 => hx2, fun x hx2 => hx2⟩
      | drug =>
        have hn : pt.drug_date_abstracted = none := hnone
        exact ⟨rfl, rfl, rfl, rfl, rfl, rfl, rfl, rfl, rfl,
          fun x hx2 => hx2,
          fun x hx2 => by rw [hn] at hx2; exact Option.noConfusion hx2,
          fun x hx2 => hx2⟩
      | death =>
        have hn : pt.death_date_abstracted = none := hnone
        exact ⟨rfl, rfl, rfl, rfl, rfl, rfl, rfl, rfl, rfl,
          fun x hx2 => hx2, fun x hx2 => hx2,
          fun x hx2 => by rw [hn] at hx2; exact Option.noConfusion hx2⟩
    · exact patientFrame_refl pt

theorem abstract_patient_events_frame (sp : SimParams) (a : Date) (pt : Patient)
    (g : RandOracle) : patientFrame pt (abstract_patient_events sp a pt g).1 := by
  unfold abstract_patient_events
  exact patientFrame_trans
    (patientFrame_trans (set_events_abstracted_date_frame sp pt .diagnosis a g)
      (set_events_abstracted_date_frame sp _ .drug a _))
    (set_events_abstracted_date_frame sp _ .death a _)

theorem getD_set_self {α : Type} : ∀ (l : List α) (i : Nat) (x d : α), i < l.length →
    (l.set i x).getD i d = x
  | [], i, x, d, h => absurd h (by simp)
  | _ :: _, 0, x, d, _ => rfl
  | _ :: t, i + 1, x, d, h => getD_set_self t i x d (by simpa using h)

theorem getD_set_ne {α : Type} : ∀ (l : List α) (i j : Nat) (x d : α), i ≠ j →
    (l.set i x).getD j d = l.getD j d
  | [], _, _, _, _, _ => rfl
  | _ :: _, 0, 0, _, _, h => absurd rfl h
  | _ :: _, 0, _ + 1, _, _, _ => rfl
  | _ :: _, _ + 1, 0, _, _, _ => rfl
  | _ :: t, i + 1, j + 1, x, d, h => getD_set_ne t i j x d (fun hc => h (by omega))

theorem set_oob {α : Type} : ∀ (l : List α) (i : Nat) (x : α), l.length ≤ i → l.set i x = l
  | [], _, _, _ => rfl
  | _ :: _, 0, _, h => absurd h (by simp)
  | a :: t, i + 1, x, h => by
    show a :: t.set i x = a :: t
    rw [set_oob t i x (by simpa using h)]

theorem getD_mem {α : Type} : ∀ (l : List α) (n : Nat) (d : α), n < l.length →
    l.getD n d ∈ l
  | [], n, d, h => absurd h (by simp)
  | a :: t, 0, d, _ => List.mem_cons_self a t
  | a :: t, n + 1, d, h => List.mem_cons_of_mem a (getD_mem t n d (by simpa using h))

/-- Cohort-level frame relation: same length, and the frame relation holds
position by position. -/
def cohortFrame (ps qs : List Patient) : Prop :=
  qs.length = ps.length
    ∧ ∀ i, patientFrame (ps.getD i dummyPatient) (qs.getD i dummyPatient)

theorem cohortFrame_refl (ps : List Patient) : cohortFrame ps ps :=
  ⟨rfl, fun _ => patientFrame_refl _⟩

theorem cohortFrame_trans {ps qs rs : List Patient} (h1 : cohortFrame ps qs)
    (h2 : cohortFrame qs rs) : cohortFrame ps rs :=
  ⟨h2.1.trans h1.1, fun i => patientFrame_trans (h1.2 i) (h2.2 i)⟩

theorem abstract_selected_frame (sp : SimParams) (a : Date) :
    ∀ (sel : List Nat) (pats : List Patient) (g : RandOracle),
      cohortFrame pats (abstract_selected sp a sel pats g).1
  | [], pats, g => cohortFrame_refl pats
  | i :: rest, pats, g => by
    unfold abstract_selected
    dsimp only
    rcases Nat.lt_or_ge i pats.length with hlt | hge
    · refine @cohortFrame_trans _ (pats.set i
        (abstract_patient_events sp a (pats.getD i dummyPatient) g).1) _ ⟨?_, ?_⟩
        (abstract_selected_frame sp a rest _ _)
      · exact List.length_set ..
      · intro j
        by_cases hij : i = j
        · rw [hij, getD_set_self _ _ _ _ (hij ▸ hlt)]
          exact abstract_patient_events_frame sp a _ g
        · rw [getD_set_ne _ _ _ _ _ hij]
          exact patientFrame_refl _
    · rw [set_oob _ _ _ hge]
      exact abstract_selected_frame sp a rest pats _

theorem abstraction_step_frame (sp : SimParams) (s : AbsState) (abstr : List Nat) :
    cohortFrame s.patients (abstraction_step sp s abstr).patients := by
  unfold abstraction_step
  exact abstract_selected_frame sp s.assessment_date _ s.patients _

theorem generate_abstracted_dates_fuel_frame (sp : SimParams) :
    ∀ (fuel : Nat) (s : AbsState) (final : List Patient),
      generate_abstracted_dates_fuel sp fuel s = some final → cohortFrame s.patients final := by
  intro fuel
  induction fuel with
  | zero => intro s final h; exact absurd h (by simp [generate_abstracted_dates_fuel])
  | succ n ih =>
    intro s final h
    unfold generate_abstracted_dates_fuel at h
    dsimp only at h
    split_ifs at h with h1 h2
    · exact (Option.some.inj h) ▸ cohortFrame_refl s.patients
    · exact (Option.some.inj h) ▸ abstraction_step_frame sp s _
    · exact cohortFrame_trans (abstraction_step_frame sp s _) (ih _ final h)

/-- C9: the abstraction loop only ever writes the three `*_date_abstracted`
fields: patient identity, drug, occurred dates, the death-recorded date and
all exported dates are unchanged in every cohort position, and a set
abstracted date is never overwritten by a later cycle (write-once). -/
theorem claim_C9 (sp : SimParams) (pats : List Patient) (g : RandOracle) (fuel : Nat)
    (final : List Patient) (h : generate_abstracted_dates sp pats g fuel = some final) :
    final.length = pats.length
      ∧ ∀ i, patientFrame (pats.getD i dummyPatient) (final.getD i dummyPatient) :=
  generate_abstracted_dates_fuel_frame sp fuel _ final h

/-- Cohort of the fixture run after export-date assignment. -/
def exportedOne : List Patient :=
  generate_exported_dates (generate_patient_cohort paramsOne oracleZero).1 paramsOne

/-- Oracle state of the fixture run after cohort generation. -/
def oracleOne : RandOracle := (generate_patient_cohort paramsOne oracleZero).2

/-- The fixture run's finished cohort (one fully abstracted patient). -/
def finalOne : List Patient :=
  [⟨1, drugA, ⟨2020, 1, 1⟩, some ⟨2020, 2, 1⟩, some ⟨2020, 2, 1⟩,
    some ⟨2020, 1, 1⟩, some ⟨2020, 2, 1⟩, some ⟨2020, 2, 1⟩, none, none, none, none⟩]

/-- C9 witness: the theorem instantiated on the fixture run. -/
theorem claim_C9_witness :
    patientFrame (exportedOne.getD 0 dummyPatient) (finalOne.getD 0 dummyPatient) :=
  (claim_C9 paramsOne exportedOne oracleOne 3 finalOne (by decide)).2 0

/-! ## Progress measure of the abstraction loop (claim C1) -/

def flagUnset (o : Option Date) : Nat := if o = none then 1 else 0

/-- Number of abstracted fields of a patient still unset. -/
def unsetCount (p : Patient) : Nat :=
  flagUnset (eventAbstracted p .diagnosis) + flagUnset (eventAbstracted p .drug)
    + flagUnset (eventAbstracted p .death)

/-- Total number of unset abstracted fields over a cohort. -/
def cohortMeasure : List Patient → Nat
  | [] => 0
  | p :: rest => unsetCount p + cohortMeasure rest

theorem flagUnset_le_one (o : Option Date) : flagUnset o ≤ 1 := by
  unfold flagUnset; split <;> omega

theorem flagUnset_le_of_preserved {a b : Option Date} (h : abstractedPreserved a b) :
    flagUnset b ≤ flagUnset a := by
  cases ha : a with
  | none =>
    have h1 := flagUnset_le_one b
    have h2 : flagUnset (none : Option Date) = 1 := rfl
    omega
  | some x =>
    rw [h x ha]

theorem patientFrame_abstracted (e : EventKind) {p q : Patient} (h : patientFrame p q) :
    abstractedPreserved (eventAbstracted p e) (eventAbstracted q e) := by
  obtain ⟨_, _, _, _, _, _, _, _, _, h10, h11, h12⟩ := h
  cases e
  · exact h10
  · exact h11
  · exact h12

theorem unsetCount_le_of_frame {p q : Patient} (h : patientFrame p q) :
    unsetCount q ≤ unsetCount p :=
  Nat.add_le_add
    (Nat.add_le_add (flagUnset_le_of_preserved (patientFrame_abstracted .diagnosis h))
      (flagUnset_le_of_preserved (patientFrame_abstracted .drug h)))
    (flagUnset_le_of_preserved (patientFrame_abstracted .death h))

theorem unsetCount_le_three (p : Patient) : unsetCount p ≤ 3 := by
  have h1 := flagUnset_le_one (eventAbstracted p .diagnosis)
  have h2 := flagUnset_le_one (eventAbstracted p .drug)
  have h3 := flagUnset_le_one (eventAbstracted p .death)
  unfold unsetCount
  omega

theorem cohortMeasure_le : ∀ pats : List Patient, cohortMeasure pats ≤ 3 * pats.length
  | [] => Nat.le_refl 0
  | p :: rest => by
    have h1 := unsetCount_le_three p
    have h2 := cohortMeasure_le rest
    show unsetCount p + cohortMeasure rest ≤ 3 * (rest.length + 1)
    omega

theorem cohortMeasure_set : ∀ (l : List Patient) (i : Nat) (x : Patient), i < l.length →
    cohortMeasure (l.set i x) + unsetCount (l.getD i dummyPatient)
      = cohortMeasure l + unsetCount x
  | [], i, x, h => absurd h (by simp)
  | p :: t, 0, x, _ => by
    show (unsetCount x + cohortMeasure t) + unsetCount p
      = (unsetCount p + cohortMeasure t) + unsetCount x
    omega
  | p :: t, i + 1, x, h => by
    have := cohortMeasure_set t i x (by simpa using h)
    show (unsetCount p + cohortMeasure (t.set i x)) + unsetCount (t.getD i dummyPatient)
      = (unsetCount p + cohortMeasure t) + unsetCount x
    omega

theorem unsetCount_getD_le : ∀ (l : List Patient) (i : Nat), i < l.length →
    unsetCount (l.getD i dummyPatient) ≤ cohortMeasure l
  | [], i, h => absurd h (by simp)
  | p :: t, 0, _ => by show unsetCount p ≤ unsetCount p + cohortMeasure t; omega
  | p :: t, i + 1, h => by
    have := unsetCount_getD_le t i (by simpa using h)
    show unsetCount (t.getD i dummyPatient) ≤ unsetCount p + cohortMeasure t
    omega

theorem eventExported_set_events (sp : SimParams) (pt : Patient) (e' : EventKind) (a : Date)
    (g : RandOracle) (e : EventKind) :
    eventExported (set_events_abstracted_date sp pt e' a g).1 e = eventExported pt e := by
  unfold set_events_abstracted_date
  cases hx : eventExported pt e' with
  | none => rfl
  | some ex =>
    dsimp only
    split_ifs with h
    · cases e' <;> cases e <;> rfl
    · rfl

theorem eventAbstracted_set_events_ne (sp : SimParams) (pt : Patient) (e' : EventKind) (a : Date)
    (g : RandOracle) (e : EventKind) (hne : e ≠ e') :
    eventAbstracted (set_events_abstracted_date sp pt e' a g).1 e = eventAbstracted pt e := by
  unfold set_events_abstracted_date
  cases hx : eventExported pt e' with
  | none => rfl
  | some ex =>
    dsimp only
    split_ifs with h
    · cases e' <;> cases e <;> first
        | exact absurd rfl hne
        | rfl
    · rfl

theorem eventAbstracted_set_events_self (sp : SimParams) (pt : Patient) (e : EventKind) (a : Date)
    (g : RandOracle)
    (h : is_event_abstractable (eventExported pt e) (eventAbstracted pt e) a = true) :
    ∃ v, eventAbstracted (set_events_abstracted_date sp pt e a g).1 e = some v := by
  unfold set_events_abstracted_date
  cases hx : eventExported pt e with
  | none => rw [hx, is_event_abstractable_none_exported] at h; exact Bool.noConfusion h
  | some ex =>
    rw [hx] at h
    dsimp only
    rw [if_pos h]
    cases e <;> exact ⟨_, rfl⟩

theorem is_patient_abstractable_cases {pt : Patient} {a : Date}
    (h : is_patient_abstractable pt a = true) :
    is_event_abstractable (eventExported pt .diagnosis) (eventAbstracted pt .diagnosis) a = true
      ∨ is_event_abstractable (eventExported pt .drug) (eventAbstracted pt .drug) a = true
      ∨ is_event_abstractable (eventExported pt .death) (eventAbstracted pt .death) a = true := by
  unfold is_patient_abstractable at h
  simp only [List.any_cons, List.any_nil, Bool.or_eq_true, Bool.or_false] at h
  exact h

theorem unsetCount_pos_of_abstractable {pt : Patient} {a : Date}
    (h : is_patient_abstractable pt a = true) : 1 ≤ unsetCount pt := by
  have hflag : ∀ e : EventKind, eventAbstracted pt e = none
      → flagUnset (eventAbstracted pt e) = 1 := by
    intro e he
    rw [he]
    rfl
  rcases is_patient_abstractable_cases h with hd | hdr | hde
  · have := hflag .diagnosis (is_event_abstractable_abstracted_none hd)
    unfold unsetCount
    omega
  · have := hflag .drug (is_event_abstractable_abstracted_none hdr)
    unfold unsetCount
    omega
  · have := hflag .death (is_event_abstractable_abstracted_none hde)
    unfold unsetCount
    omega

theorem abstract_patient_events_strict (sp : SimParams) (a : Date) (pt : Patient)
    (g : RandOracle) (h : is_patient_abstractable pt a = true) :
    unsetCount (abstract_patient_events sp a pt g).1 < unsetCount pt := by
  have hres : (abstract_patient_events sp a pt g).1
      = (set_events_abstracted_date sp
          (set_events_abstracted_date sp
            (set_events_abstracted_date sp pt .diagnosis a g).1 .drug a
            (set_events_abstracted_date sp pt .diagnosis a g).2).1 .death a
          (set_events_abstracted_date sp
            (set_events_abstracted_date sp pt .diagnosis a g).1 .drug a
            (set_events_abstracted_date sp pt .diagnosis a g).2).2).1 := rfl
  have hframe := abstract_patient_events_frame sp a pt g
  have hle1 := flagUnset_le_of_preserved (patientFrame_abstracted .diagnosis hframe)
  have hle2 := flagUnset_le_of_preserved (patientFrame_abstracted .drug hframe)
  have hle3 := flagUnset_le_of_preserved (patientFrame_abstracted .death hframe)
  rcases is_patient_abstractable_cases h with hd | hdr | hde
  · -- the diagnosis event is abstracted in the first pass and then preserved
    obtain ⟨v, hv⟩ := eventAbstracted_set_events_self sp pt .diagnosis a g hd
    have hkeep : eventAbstracted (abstract_patient_events sp a pt g).1 .diagnosis = some v := by
      rw [hres]
      refine @abstractedPreserved_trans _ (eventAbstracted
        (set_events_abstracted_date sp
          (set_events_abstracted_date sp pt .diagnosis a g).1 .drug a
          (set_events_abstracted_date sp pt .diagnosis a g).2).1 .diagnosis) _ ?_ ?_ v hv
      · exact patientFrame_abstracted .diagnosis (set_events_abstracted_date_frame sp _ .drug a _)
      · exact patientFrame_abstracted .diagnosis (set_events_abstracted_date_frame sp _ .death a _)
    have hz : flagUnset (eventAbstracted (abstract_patient_events sp a pt g).1 .diagnosis) = 0 := by
      rw [hkeep]; rfl
    have ho : flagUnset (eventAbstracted pt .diagnosis) = 1 := by
      rw [is_event_abstractable_abstracted_none hd]; rfl
    unfold unsetCount
    omega
  · -- the drug event: untouched by the diagnosis pass, abstracted in the drug pass
    have hc : is_event_abstractable
        (eventExported (set_events_abstracted_date sp pt .diagnosis a g).1 .drug)
        (eventAbstracted (set_events_abstracted_date sp pt .diagnosis a g).1 .drug) a
        = true := by
      rw [eventExported_set_events, eventAbstracted_set_events_ne sp pt .diagnosis a g .drug
        (by simp)]
      exact hdr
    obtain ⟨v, hv⟩ := eventAbstracted_set_events_self sp _ .drug a _ hc
    have hkeep : eventAbstracted (abstract_patient_events sp a pt g).1 .drug = some v := by
      rw [hres]
      exact patientFrame_abstracted .drug (set_events_abstracted_date_frame sp _ .death a _) v hv
    have hz : flagUnset (eventAbstracted (abstract_patient_events sp a pt g).1 .drug) = 0 := by
      rw [hkeep]; rfl
    have ho : flagUnset (eventAbstracted pt .drug) = 1 := by
      rw [is_event_abstractable_abstracted_none hdr]; rfl
    unfold unsetCount
    omega
  · -- the death event: untouched by the first two passes, abstracted last
    have hc : is_event_abstractable
        (eventExported (set_events_abstracted_date sp
          (set_events_abstracted_date sp pt .diagnosis a g).1 .drug a
          (set_events_abstracted_date sp pt .diagnosis a g).2).1 .death)
        (eventAbstracted (set_events_abstracted_date sp
          (set_events_abstracted_date sp pt .diagnosis a g).1 .drug a
          (set_events_abstracted_date sp pt .diagnosis a g).2).1 .death) a = true := by
      rw [eventExported_set_events, eventExported_set_events,
        eventAbstracted_set_events_ne sp _ .drug a _ .death (by simp),
        eventAbstracted_set_events_ne sp pt .diagnosis a g .death (by simp)]
      exact hde
    obtain ⟨v, hv⟩ := eventAbstracted_set_events_self sp _ .death a _ hc
    have hkeep : eventAbstracted (abstract_patient_events sp a pt g).1 .death = some v := by
      rw [hres]
      exact hv
    have hz : flagUnset (eventAbstracted (abstract_patient_events sp a pt g).1 .death) = 0 := by
      rw [hkeep]; rfl
    have ho : flagUnset (eventAbstracted pt .death) = 1 := by
      rw [is_event_abstractable_abstracted_none hde]; rfl
    unfold unsetCount
    omega

theorem abstract_selected_measure_le (sp : SimParams) (a : Date) :
    ∀ (sel : List Nat) (pats : List Patient) (g : RandOracle),
      cohortMeasure (abstract_selected sp a sel pats g).1 ≤ cohortMeasure pats
  | [], pats, g => Nat.le_refl _
  | i :: rest, pats, g => by
    unfold abstract_selected
    dsimp only
    rcases Nat.lt_or_ge i pats.length with hlt | hge
    · have hset := cohortMeasure_set pats i
        (abstract_patient_events sp a (pats.getD i dummyPatient) g).1 hlt
      have hle := unsetCount_le_of_frame
        (abstract_patient_events_frame sp a (pats.getD i dummyPatient) g)
      have hrest := abstract_selected_measure_le sp a rest
        (pats.set i (abstract_patient_events sp a (pats.getD i dummyPatient) g).1)
        (abstract_patient_events sp a (pats.getD i dummyPatient) g).2
      omega
    · rw [set_oob _ _ _ hge]
      exact abstract_selected_measure_le sp a rest pats _

theorem abstract_selected_measure_lt (sp : SimParams) (a : Date) (i : Nat) (rest : List Nat)
    (pats : List Patient) (g : RandOracle) (hlt : i < pats.length)
    (habs : is_patient_abstractable (pats.getD i dummyPatient) a = true) :
    cohortMeasure (abstract_selected sp a (i :: rest) pats g).1 < cohortMeasure pats := by
  unfold abstract_selected
  dsimp only
  have hset := cohortMeasure_set pats i
    (abstract_patient_events sp a (pats.getD i dummyPatient) g).1 hlt
  have hstrict := abstract_patient_events_strict sp a (pats.getD i dummyPatient) g habs
  have hrest := abstract_selected_measure_le sp a rest
    (pats.set i (abstract_patient_events sp a (pats.getD i dummyPatient) g).1)
    (abstract_patient_events sp a (pats.getD i dummyPatient) g).2
  omega

theorem sampleIdx_cons (g : RandOracle) (pool : List Nat) (k : Nat) (hk : 1 ≤ k)
    (hp : pool ≠ []) :
    ∃ i rest, (sampleIdx g pool k).1 = i :: rest ∧ i ∈ pool := by
  cases k with
  | zero => omega
  | succ k' =>
    cases pool with
    | nil => exact absurd rfl hp
    | cons a t =>
      refine ⟨_, _, rfl, ?_⟩
      exact getD_mem _ _ _ (Nat.mod_lt _ (by simp))

theorem mem_abstractable {pats : List Patient} {a : Date} {i : Nat}
    (h : i ∈ abstractable_indices pats a) :
    i < pats.length ∧ is_patient_abstractable (pats.getD i dummyPatient) a = true := by
  unfold abstractable_indices at h
  rw [List.mem_filter] at h
  exact ⟨List.mem_range.mp h.1, h.2⟩

theorem abstraction_step_measure_lt (sp : SimParams) (s : AbsState)
    (htp : 1 ≤ sp.patients_abstracted_per_month)
    (hf : 1 ≤ sp.db_update_frequency_in_months)
    (hne : abstractable_indices s.patients s.assessment_date ≠ []) :
    cohortMeasure (abstraction_step sp s (abstractable_indices s.patients s.assessment_date)).patients
      < cohortMeasure s.patients := by
  unfold abstraction_step
  dsimp only
  have hlen : 1 ≤ (abstractable_indices s.patients s.assessment_date).length := by
    cases habs : abstractable_indices s.patients s.assessment_date with
    | nil => exact absurd habs hne
    | cons a t => simp
  have hmul : 1 ≤ sp.patients_abstracted_per_month * sp.db_update_frequency_in_months := by
    calc 1 = 1 * 1 := rfl
    _ ≤ sp.patients_abstracted_per_month * sp.db_update_frequency_in_months :=
      Nat.mul_le_mul htp hf
  obtain ⟨i, rest, hsel, hmem⟩ := sampleIdx_cons s.oracle
    (abstractable_indices s.patients s.assessment_date)
    (min (sp.patients_abstracted_per_month * sp.db_update_frequency_in_months)
      (abstractable_indices s.patients s.assessment_date).length)
    (by omega) hne
  rw [hsel]
  obtain ⟨hilt, habs⟩ := mem_abstractable hmem
  exact abstract_selected_measure_lt sp s.assessment_date i rest s.patients _ hilt habs

theorem generate_abstracted_dates_fuel_total (sp : SimParams)
    (htp : 1 ≤ sp.patients_abstracted_per_month)
    (hf : 1 ≤ sp.db_update_frequency_in_months) :
    ∀ (m : Nat) (s : AbsState), cohortMeasure s.patients ≤ m →
      generate_abstracted_dates_fuel sp (m + 1) s ≠ none := by
  intro m
  induction m with
  | zero =>
    intro s hm
    unfold generate_abstracted_dates_fuel
    dsimp only
    split_ifs with h1 h2
    · simp
    · simp
    · exfalso
      obtain ⟨i, hi⟩ : ∃ i, i ∈ abstractable_indices s.patients s.assessment_date := by
        cases habs : abstractable_indices s.patients s.assessment_date with
        | nil => exact absurd habs h1
        | cons a t => exact ⟨a, habs ▸ List.mem_cons_self a t⟩
      obtain ⟨hlt, habs⟩ := mem_abstractable hi
      have hpos := unsetCount_pos_of_abstractable habs
      have hle := unsetCount_getD_le s.patients i hlt
      omega
  | succ n ih =>
    intro s hm
    unfold generate_abstracted_dates_fuel
    dsimp only
    split_ifs with h1 h2
    · simp
    · simp
    · have hlt := abstraction_step_measure_lt sp s htp hf h1
      exact ih _ (by omega)

/-! ## Claim C1 -/

/-- C1 (amended, positive part): with a positive abstraction throughput and a
positive export cadence, the abstraction loop reaches one of its two exit
conditions within at most `3 * cohort size + 1` iterations, for every cohort
and every random outcome: every non-final iteration abstracts at least one
event and events are abstracted at most once. -/
theorem claim_C1 (sp : SimParams) (pats : List Patient) (g : RandOracle)
    (htp : 1 ≤ sp.patients_abstracted_per_month)
    (hf : 1 ≤ sp.db_update_frequency_in_months) :
    generate_abstracted_dates sp pats g (3 * pats.length + 1) ≠ none := by
  unfold generate_abstracted_dates
  exact generate_abstracted_dates_fuel_total sp htp hf (3 * pats.length) _ (cohortMeasure_le pats)

/-- C1 witness: with the fixture configuration and a single patient the loop
terminates within the bound. -/
theorem claim_C1_witness :
    generate_abstracted_dates paramsOne
      [⟨1, drugA, ⟨2020, 1, 1⟩, some ⟨2020, 2, 1⟩, none, none, none, none,
        none, none, none, none⟩] oracleZero 4 ≠ none :=
  claim_C1 paramsOne _ oracleZero (by decide) (by decide)

/-- Non-termination of the abstraction loop from a given entry state: no
amount of fuel makes it reach an exit condition, i.e. the source's unbounded
`while True` never stops. -/
def divergesFrom (sp : SimParams) (pats : List Patient) (g : RandOracle) : Prop :=
  ∀ fuel, generate_abstracted_dates sp pats g fuel = none

/-- The fixture with the misconfigured zero abstraction throughput. -/
def paramsZeroThroughput : SimParams :=
  { paramsOne with patients_abstracted_per_month := 0 }

/-- A patient whose diagnosis event is exported (2020-02-01) but never
abstracted. -/
def stuckPatient : Patient :=
  ⟨1, drugA, ⟨2020, 1, 1⟩, some ⟨2020, 2, 1⟩, none, none, none, none,
   none, none, none, none⟩

theorem stuck_abstractable {a : Date} (hle : Date.Le ⟨2020, 2, 1⟩ a) :
    is_patient_abstractable stuckPatient a = true := by
  have hev : is_event_abstractable (some ⟨2020, 2, 1⟩) none a = true := by
    unfold is_event_abstractable
    simp only [Option.isNone_none, Bool.true_and]
    exact decide_eq_true hle
  unfold is_patient_abstractable
  simp only [List.any_cons, List.any_nil, Bool.or_eq_true, Bool.or_false]
  exact Or.inl hev

theorem stuck_indices {a : Date} (hle : Date.Le ⟨2020, 2, 1⟩ a) :
    abstractable_indices [stuckPatient] a = [0] := by
  unfold abstractable_indices
  rw [show List.range ([stuckPatient].length) = [0] from rfl]
  rw [List.filter_cons, List.filter_nil]
  rw [show ([stuckPatient].getD 0 dummyPatient) = stuckPatient from rfl]
  rw [stuck_abstractable hle]
  rfl

theorem stuck_loop_diverges :
    ∀ (fuel : Nat) (a : Date) (g : RandOracle), Date.MonthOk a → Date.Le ⟨2020, 2, 1⟩ a →
      generate_abstracted_dates_fuel paramsZeroThroughput fuel
        { patients := [stuckPatient], assessment_date := a, oracle := g } = none := by
  intro fuel
  induction fuel with
  | zero => intro a g _ _; rfl
  | succ n ih =>
    intro a g hm hle
    unfold generate_abstracted_dates_fuel
    dsimp only
    rw [stuck_indices hle]
    rw [if_neg (by simp)]
    have hstep : abstraction_step paramsZeroThroughput
        { patients := [stuckPatient], assessment_date := a, oracle := g } [0]
        = { patients := [stuckPatient],
            assessment_date :=
              calculate_next_abstraction_assessment_date a paramsZeroThroughput,
            oracle := g } := rfl
    rw [hstep]
    have hfalse : List.all [stuckPatient] is_patient_fully_abstracted = false := rfl
    rw [if_neg (by
      show ¬ (List.all [stuckPatient] is_patient_fully_abstracted = true)
      rw [hfalse]
      exact Bool.false_ne_true)]
    have hm' : Date.MonthOk (calculate_next_abstraction_assessment_date a paramsZeroThroughput) :=
      monthOk_withDayClamp (monthOk_addMonths _ _) 2
    have hlt : Date.Lt a (calculate_next_abstraction_assessment_date a paramsZeroThroughput) := by
      refine lt_of_monthIdx_lt hm hm' ?_
      unfold calculate_next_abstraction_assessment_date
      rw [monthIdx_withDayClamp, monthIdx_addMonths hm (by omega)]
      have hfreq : paramsZeroThroughput.db_update_frequency_in_months = 1 := rfl
      rw [hfreq]
      omega
    exact ih _ g hm' (Date.le_trans hle (Date.le_of_lt hlt))

/-- C1 counterexample: with `patients_abstracted_per_month = 0` and a patient
holding an exported, never-abstracted event, `generate_abstracted_dates`
loops forever — the code has no defensive iteration bound and no
`ConvergenceError`; each cycle selects zero patients, changes nothing, and
neither exit condition ever fires. -/
theorem claim_C1_counterexample :
    divergesFrom paramsZeroThroughput [stuckPatient] oracleZero := by
  intro fuel
  unfold generate_abstracted_dates
  exact stuck_loop_diverges fuel _ _ (by decide) (by decide)

/-! ## Stage-ordering invariant of the pipeline (claim C3) -/

/-- Stage link between two optional dates: whenever the later stage is set,
the earlier stage is set and not after it. -/
def optStage (a b : Option Date) : Prop :=
  ∀ y, b = some y → ∃ x, a = some x ∧ Date.Le x y

/-- The full temporal-consistency invariant of one patient record. -/
def stageOK (p : Patient) : Prop :=
  optStage (some p.diagnosis_date) p.diagnosis_date_exported
    ∧ optStage p.diagnosis_date_exported p.diagnosis_date_abstracted
    ∧ optStage p.drug_date p.drug_date_exported
    ∧ optStage p.drug_date_exported p.drug_date_abstracted
    ∧ optStage p.death_date p.death_date_recorded
    ∧ optStage p.death_date_recorded p.death_date_exported
    ∧ optStage p.death_date p.death_date_exported
    ∧ optStage p.death_date_exported p.death_date_abstracted

theorem optStage_of_none {a b : Option Date} (hb : b = none) : optStage a b := by
  intro y hy
  rw [hb] at hy
  exact Option.noConfusion hy

theorem optStage_none (a : Option Date) : optStage a none := optStage_of_none rfl

theorem optStage_some {x : Date} {b : Option Date} (h : ∀ y, b = some y → Date.Le x y) :
    optStage (some x) b := fun y hy => ⟨x, rfl, h y hy⟩

theorem stageOK_dummy : stageOK dummyPatient :=
  ⟨optStage_none _, optStage_none _, optStage_none _, optStage_none _,
   optStage_none _, optStage_none _, optStage_none _, optStage_none _⟩

theorem determine_treatment_date_monthOk {diag : Date} {death : Option Date}
    {range : Int × Int} {r : Nat} {d : Date} (hm : Date.MonthOk diag)
    (h : determine_treatment_date diag death range r = some d) : Date.MonthOk d := by
  unfold determine_treatment_date at h
  dsimp only at h
  cases death with
  | none =>
    dsimp only at h
    rw [← Option.some.inj h]
    exact addDays_monthOk hm
  | some dd =>
    dsimp only at h
    split_ifs at h with hc
    · rw [← Option.some.inj h]
      exact addDays_monthOk hm

theorem determine_death_date_monthOk {diag : Date} {curve : List (Nat × Frac)} {u : Frac}
    {d : Date} (hm : Date.MonthOk diag)
    (h : determine_death_date diag curve u = some d) : Date.MonthOk d := by
  unfold determine_death_date at h
  cases hi : interp_sample curve u with
  | none => rw [hi] at h; exact Option.noConfusion h
  | some yd =>
    rw [hi] at h
    dsimp only at h
    rw [← Option.some.inj h]
    exact addDays_monthOk hm

theorem simulate_delayed_stage {ed : Option Date} {range : Int × Int} {r : Nat}
    (h0 : 0 ≤ range.1) (h1 : range.1 ≤ range.2) :
    optStage ed (simulate_delayed_recording_date ed range r) := by
  unfold simulate_delayed_recording_date
  cases ed with
  | none => exact optStage_none _
  | some d0 =>
    refine optStage_some (fun y hy => ?_)
    rw [← Option.some.inj hy]
    exact le_addDays d0 (le_trans h0 (randint_bounds r h1).1)

theorem simulate_delayed_monthOk {ed : Option Date} {range : Int × Int} {r : Nat} {d : Date}
    (hm : ∀ d0, ed = some d0 → Date.MonthOk d0)
    (h : simulate_delayed_recording_date ed range r = some d) : Date.MonthOk d := by
  unfold simulate_delayed_recording_date at h
  cases hed : ed with
  | none => rw [hed] at h; exact Option.noConfusion h
  | some d0 =>
    rw [hed] at h
    dsimp only at h
    rw [← Option.some.inj h]
    exact addDays_monthOk (hm d0 hed)

theorem generate_patient_initial (pid : Nat) (sp : SimParams) (g : RandOracle)
    (hobs : Date.MonthOk sp.observation_start_date)
    (hr0 : 0 ≤ sp.death_date_recording_latency_range.1)
    (hr1 : sp.death_date_recording_latency_range.1 ≤ sp.death_date_recording_latency_range.2) :
    Date.MonthOk (generate_patient pid sp g).1.diagnosis_date
      ∧ (∀ d, (generate_patient pid sp g).1.drug_date = some d → Date.MonthOk d)
      ∧ (∀ d, (generate_patient pid sp g).1.death_date_recorded = some d → Date.MonthOk d)
      ∧ optStage (generate_patient pid sp g).1.death_date
          (generate_patient pid sp g).1.death_date_recorded
      ∧ (generate_patient pid sp g).1.diagnosis_date_exported = none
      ∧ (generate_patient pid sp g).1.drug_date_exported = none
      ∧ (generate_patient pid sp g).1.death_date_exported = none
      ∧ (generate_patient pid sp g).1.diagnosis_date_abstracted = none
      ∧ (generate_patient pid sp g).1.drug_date_abstracted = none
      ∧ (generate_patient pid sp g).1.death_date_abstracted = none := by
  have hMdiag : Date.MonthOk (generate_patient pid sp g).1.diagnosis_date := by
    show Date.MonthOk (generate_random_date sp.observation_start_date
      sp.observation_end_date (randHeadN g))
    unfold generate_random_date
    exact addDays_monthOk hobs
  have hMdeath : ∀ d0, (generate_patient pid sp g).1.death_date = some d0
      → Date.MonthOk d0 := fun d0 hd0 => determine_death_date_monthOk hMdiag hd0
  refine ⟨hMdiag, ?_, ?_, ?_, rfl, rfl, rfl, rfl, rfl, rfl⟩
  · exact fun d hd => determine_treatment_date_monthOk hMdiag hd
  · exact fun d hd => simulate_delayed_monthOk hMdeath hd
  · exact simulate_delayed_stage hr0 hr1

theorem set_exported_dates_stage (sp : SimParams) (pt : Patient)
    (hf : 1 ≤ sp.db_update_frequency_in_months) (hst : Date.MonthOk sp.study_start_date)
    (hMd : Date.MonthOk pt.diagnosis_date)
    (hMdr : ∀ d, pt.drug_date = some d → Date.MonthOk d)
    (hMrec : ∀ d, pt.death_date_recorded = some d → Date.MonthOk d)
    (hrecStage : optStage pt.death_date pt.death_date_recorded)
    (habs1 : pt.diagnosis_date_abstracted = none)
    (habs2 : pt.drug_date_abstracted = none)
    (habs3 : pt.death_date_abstracted = none) :
    stageOK (set_exported_dates sp pt) := by
  have hexp6 : optStage pt.death_date_recorded (calculate_exported_date pt.death_date_recorded
      sp.study_start_date sp.db_update_frequency_in_months) := by
    intro y hy
    cases hrec : pt.death_date_recorded with
    | none => rw [hrec] at hy; exact Option.noConfusion hy
    | some rd =>
      rw [hrec] at hy
      exact ⟨rd, rfl, Date.le_of_lt
        (calculate_exported_date_lt hf (hMrec rd hrec) hst hy).1⟩
  refine ⟨?_, ?_, ?_, ?_, ?_, ?_, ?_, ?_⟩
  · -- diagnosis occurred to exported
    show optStage (some pt.diagnosis_date) (calculate_exported_date (some pt.diagnosis_date)
      sp.study_start_date sp.db_update_frequency_in_months)
    intro y hy
    exact ⟨pt.diagnosis_date, rfl, Date.le_of_lt (calculate_exported_date_lt hf hMd hst hy).1⟩
  · -- diagnosis exported to abstracted (abstracted still unset)
    exact optStage_of_none habs1
  · -- drug occurred to exported
    show optStage pt.drug_date (calculate_exported_date pt.drug_date
      sp.study_start_date sp.db_update_frequency_in_months)
    intro y hy
    cases hdr : pt.drug_date with
    | none => rw [hdr] at hy; exact Option.noConfusion hy
    | some d =>
      rw [hdr] at hy
      exact ⟨d, rfl, Date.le_of_lt (calculate_exported_date_lt hf (hMdr d hdr) hst hy).1⟩
  · exact optStage_of_none habs2
  · -- death occurred to recorded
    exact hrecStage
  · -- death recorded to exported
    exact hexp6
  · -- death occurred to exported, through the recorded date
    show optStage pt.death_date (calculate_exported_date pt.death_date_recorded
      sp.study_start_date sp.db_update_frequency_in_months)
    intro y hy
    obtain ⟨rd, hrd, hrdy⟩ := hexp6 y hy
    obtain ⟨dd, hdd, hddrd⟩ := hrecStage rd hrd
    exact ⟨dd, hdd, Date.le_trans hddrd hrdy⟩
  · exact optStage_of_none habs3

theorem set_events_stage (sp : SimParams) (pt : Patient) (e : EventKind) (a : Date)
    (g : RandOracle) (h0 : 0 ≤ (eventLatencyRange sp e).1)
    (h1 : (eventLatencyRange sp e).1 ≤ (eventLatencyRange sp e).2)
    (hstage : stageOK pt) : stageOK (set_events_abstracted_date sp pt e a g).1 := by
  obtain ⟨s1, s2, s3, s4, s5, s6, s7, s8⟩ := hstage
  unfold set_events_abstracted_date
  cases hx : eventExported pt e with
  | none => exact ⟨s1, s2, s3, s4, s5, s6, s7, s8⟩
  | some ex =>
    dsimp only
    split_ifs with habs
    · have hk : 0 ≤ randint (eventLatencyRange sp e).1 (eventLatencyRange sp e).2 (randHeadN g) :=
        le_trans h0 (randint_bounds (randHeadN g) h1).1
      cases e with
      | diagnosis =>
        refine ⟨s1, ?_, s3, s4, s5, s6, s7, s8⟩
        show optStage pt.diagnosis_date_exported (some (addDays ex _))
        intro y hy
        exact ⟨ex, hx, Option.some.inj hy ▸ le_addDays ex hk⟩
      | drug =>
        refine ⟨s1, s2, s3, ?_, s5, s6, s7, s8⟩
        show optStage pt.drug_date_exported (some (addDays ex _))
        intro y hy
        exact ⟨ex, hx, Option.some.inj hy ▸ le_addDays ex hk⟩
      | death =>
        refine ⟨s1, s2, s3, s4, s5, s6, s7, ?_⟩
        show optStage pt.death_date_exported (some (addDays ex _))
        intro y hy
        exact ⟨ex, hx, Option.some.inj hy ▸ le_addDays ex hk⟩
    · exact ⟨s1, s2, s3, s4, s5, s6, s7, s8⟩

theorem abstract_patient_events_stage (sp : SimParams) (a : Date) (pt : Patient)
    (g : RandOracle) (ha0 : ∀ e : EventKind, 0 ≤ (eventLatencyRange sp e).1)
    (ha1 : ∀ e : EventKind, (eventLatencyRange sp e).1 ≤ (eventLatencyRange sp e).2)
    (hstage : stageOK pt) : stageOK (abstract_patient_events sp a pt g).1 := by
  unfold abstract_patient_events
  exact set_events_stage sp _ .death a _ (ha0 .death) (ha1 .death)
    (set_events_stage sp _ .drug a _ (ha0 .drug) (ha1 .drug)
      (set_events_stage sp pt .diagnosis a g (ha0 .diagnosis) (ha1 .diagnosis) hstage))

/-- Position-wise stage invariant over a cohort (the dummy satisfies it
vacuously, so out-of-range positions are harmless). -/
def allStage (pats : List Patient) : Prop := ∀ i, stageOK (pats.getD i dummyPatient)

theorem allStage_set {pats : List Patient} {i : Nat} {x : Patient} (h : allStage pats)
    (hx : stageOK x) : allStage (pats.set i x) := by
  intro j
  by_cases hij : i = j
  · rcases Nat.lt_or_ge i pats.length with hlt | hge
    · rw [hij] at hlt ⊢
      rw [getD_set_self _ _ _ _ hlt]
      exact hx
    · rw [set_oob _ _ _ hge]
      exact h j
  · rw [getD_set_ne _ _ _ _ _ hij]
    exact h j

theorem abstract_selected_allStage (sp : SimParams) (a : Date)
    (ha0 : ∀ e : EventKind, 0 ≤ (eventLatencyRange sp e).1)
    (ha1 : ∀ e : EventKind, (eventLatencyRange sp e).1 ≤ (eventLatencyRange sp e).2) :
    ∀ (sel : List Nat) (pats : List Patient) (g : RandOracle), allStage pats →
      allStage (abstract_selected sp a sel pats g).1
  | [], pats, g, h => h
  | i :: rest, pats, g, h => by
    unfold abstract_selected
    dsimp only
    exact abstract_selected_allStage sp a ha0 ha1 rest _ _
      (allStage_set h (abstract_patient_events_stage sp a _ _ ha0 ha1 (h i)))

theorem abstraction_step_allStage (sp : SimParams) (s : AbsState) (abstr : List Nat)
    (ha0 : ∀ e : EventKind, 0 ≤ (eventLatencyRange sp e).1)
    (ha1 : ∀ e : EventKind, (eventLatencyRange sp e).1 ≤ (eventLatencyRange sp e).2)
    (h : allStage s.patients) : allStage (abstraction_step sp s abstr).patients := by
  unfold abstraction_step
  exact abstract_selected_allStage sp s.assessment_date ha0 ha1 _ s.patients _ h

theorem generate_abstracted_dates_fuel_allStage (sp : SimParams)
    (ha0 : ∀ e : EventKind, 0 ≤ (eventLatencyRange sp e).1)
    (ha1 : ∀ e : EventKind, (eventLatencyRange sp e).1 ≤ (eventLatencyRange sp e).2) :
    ∀ (fuel : Nat) (s : AbsState) (final : List Patient),
      generate_abstracted_dates_fuel sp fuel s = some final → allStage s.patients →
        allStage final := by
  intro fuel
  induction fuel with
  | zero => intro s final h _; exact absurd h (by simp [generate_abstracted_dates_fuel])
  | succ n ih =>
    intro s final h hs
    unfold generate_abstracted_dates_fuel at h
    dsimp only at h
    split_ifs at h with h1 h2
    · exact (Option.some.inj h) ▸ hs
    · exact (Option.some.inj h) ▸ abstraction_step_allStage sp s _ ha0 ha1 hs
    · exact ih _ final h (abstraction_step_allStage sp s _ ha0 ha1 hs)

theorem allStage_of_mem : ∀ (l : List Patient), (∀ pt ∈ l, stageOK pt) → allStage l
  | [], _, i => by cases i <;> exact stageOK_dummy
  | p :: rest, h, i => by
    cases i with
    | zero => exact h p (List.mem_cons_self p rest)
    | succ n =>
      exact allStage_of_mem rest (fun q hq => h q (List.mem_cons_of_mem p hq)) n

theorem stageOK_of_allStage : ∀ {l : List Patient} {pt : Patient},
    allStage l → pt ∈ l → stageOK pt := by
  intro l
  induction l with
  | nil => intro pt _ hm; exact absurd hm (List.not_mem_nil pt)
  | cons p rest ih =>
    intro pt h hm
    rcases List.mem_cons.mp hm with heq | hm
    · rw [heq]; exact h 0
    · exact ih (fun i => h (i + 1)) hm

/-- C3: after a terminating run of the full pipeline (cohort generation,
export-date assignment, abstraction loop), every patient satisfies the whole
stage-ordering invariant `stageOK`: each exported date, when set, is on or
after its occurred date (the death chain passing through the recorded date),
each abstracted date, when set, is on or after its exported date, and no
later-stage date is ever set while its predecessor stage's date is unset —
under the configuration sanity conditions that the observation start and
study start are calendar-valid months, the export cadence is at least one
month, and every latency range is nonnegative and well ordered. -/
theorem claim_C3 (sp : SimParams) (g : RandOracle) (fuel : Nat) (final : List Patient)
    (hobs : Date.MonthOk sp.observation_start_date)
    (hst : Date.MonthOk sp.study_start_date)
    (hf : 1 ≤ sp.db_update_frequency_in_months)
    (hr0 : 0 ≤ sp.death_date_recording_latency_range.1)
    (hr1 : sp.death_date_recording_latency_range.1 ≤ sp.death_date_recording_latency_range.2)
    (ha0 : ∀ e : EventKind, 0 ≤ (eventLatencyRange sp e).1)
    (ha1 : ∀ e : EventKind, (eventLatencyRange sp e).1 ≤ (eventLatencyRange sp e).2)
    (hrun : pipeline sp g fuel = some final) :
    ∀ pt ∈ final, stageOK pt := by
  intro pt hpt
  unfold pipeline at hrun
  dsimp only at hrun
  have hexp : ∀ q ∈ generate_exported_dates (generate_patient_cohort sp g).1 sp, stageOK q := by
    intro q hq
    unfold generate_exported_dates at hq
    obtain ⟨orig, horig, hq⟩ := List.mem_map.mp hq
    unfold generate_patient_cohort at horig
    obtain ⟨pid1, g1, heq⟩ := mem_generate_cohort_from horig
    obtain ⟨hMd, hMdr, hMrec, hsg, _, _, _, hA1, hA2, hA3⟩ :=
      generate_patient_initial pid1 sp g1 hobs hr0 hr1
    rw [← hq, heq]
    exact set_exported_dates_stage sp _ hf hst hMd hMdr hMrec hsg hA1 hA2 hA3
  unfold generate_abstracted_dates at hrun
  have hfin : allStage final :=
    generate_abstracted_dates_fuel_allStage sp ha0 ha1 fuel _ final hrun
      (allStage_of_mem _ hexp)
  exact stageOK_of_allStage hfin hpt

/-- C3 witness: the single patient of the fixture run satisfies the full
stage-ordering invariant. -/
theorem claim_C3_witness : stageOK (finalOne.getD 0 dummyPatient) :=
  claim_C3 paramsOne oracleZero 3 finalOne (by decide) (by decide) (by decide)
    (by decide) (by decide) (by intro e; cases e <;> decide)
    (by intro e; cases e <;> decide) (by decide)
    (finalOne.getD 0 dummyPatient) (List.mem_cons_self _ _)

/-! ## Claim C6: the consistency checker -/

/-- Violating fixture: the death date is recorded one month before the death
occurred, so the death-recording check fires. -/
def badP1 : Patient :=
  ⟨1, drugA, ⟨2020, 1, 1⟩, none, none, none, none, none,
    some ⟨2020, 5, 1⟩, some ⟨2020, 4, 1⟩, none, none⟩

/-- Second violating fixture: the diagnosis is exported one day before it
occurred, so the diagnosis-export check fires. -/
def badP2 : Patient :=
  ⟨2, drugA, ⟨2020, 3, 2⟩, some ⟨2020, 3, 1⟩, none, none, none, none,
    none, none, none, none⟩

/-- C6 (amended): the checker is non-fatal — `run_simulation` wraps
`sanity_check_patient_records` in try/except, so every terminating pipeline
run completes and returns the cohort table together with the checker's
verdict — but it is not an enumeration of all violations: the source raises
at the first failing check of the first violating patient, so the verdict
for any cohort headed by a violating patient is exactly that patient's first
violation message, whatever violations follow. -/
theorem claim_C6 :
    (∀ (sp : SimParams) (g : RandOracle) (fuel : Nat) (final : List Patient),
        pipeline sp g fuel = some final →
          run_simulation sp g fuel = some (final, sanity_check_patient_records final))
      ∧ (∀ (p : Patient) (rest : List Patient) (m : String),
          check_patient p = some m →
            sanity_check_patient_records (p :: rest) = some m) := by
  constructor
  · intro sp g fuel final h
    unfold run_simulation
    rw [h]
  · intro p rest m h
    show (match check_patient p with
          | some m => some m
          | none => sanity_check_patient_records rest) = some m
    rw [h]

/-- C6 counterexample to the "reports every violation" reading: a cohort of
two violating patients yields only the first patient's message; the second
patient's own violation (established by the second conjunct) is never
mentioned. -/
theorem claim_C6_counterexample :
    sanity_check_patient_records [badP1, badP2]
        = some "Death date is recorded incorrectly for patient 1"
      ∧ check_patient badP2 = some "Diagnosis date is after its export date for patient 2"
      ∧ sanity_check_patient_records [badP1, badP2]
        ≠ some "Diagnosis date is after its export date for patient 2" := by
  refine ⟨rfl, rfl, ?_⟩
  intro h
  exact absurd (Option.some.inj h) (by decide)

/-- C6 witness: the short-circuit conjunct applied to the two-patient
violating cohort. -/
theorem claim_C6_witness :
    sanity_check_patient_records [badP1, badP2]
      = some "Death date is recorded incorrectly for patient 1" :=
  claim_C6.2 badP1 [badP2] "Death date is recorded incorrectly for patient 1" rfl
